import Mathlib

/-!
# Traffic-signal phase assignment and turn-conflict engine: a shallow embedding

This file embeds the core of the A/B Street map model — the traffic-signal
phase-assignment and turn-conflict engine of `map_model/src/traffic_signals.rs`
and `map_model/src/turn.rs` — as executable Lean definitions, and proves the
specification's claims about it.

Modelling conventions:
* `usize` identifiers (`RoadID`, `LaneID`, `IntersectionID`) become `Nat`.
* `geom::Duration` / `geom::Time` (f64 seconds) become `ℚ`, with
  `Time::START_OF_DAY = 0`; the Rust `%` on nonnegative operands is floor-mod.
* `BTreeSet<T>` becomes a sorted, duplicate-free `List T`; insertion keeps the
  list sorted, `remove` filters the element out, and set equality is mutual
  membership (extensionally identical to `BTreeSet` equality).
* `BTreeMap<TurnGroupID, TurnGroup>` becomes a key-sorted association list;
  `map[key]` indexing (which panics when the key is absent in Rust) is modelled
  by a lookup with a default, and every theorem whose proof could reach such a
  lookup carries hypotheses guaranteeing the key is present.
* `geom::Pt2D` becomes `ℚ × ℚ`.
-/

/-- A point of the plane, `geom::Pt2D` with exact coordinates. -/
abbrev Pt2D : Type := ℚ × ℚ

/-- `geom::PolyLine`: a sequence of points. -/
structure PolyLine where
  pts : List Pt2D
  deriving DecidableEq

/-- `PolyLine::first_pt` (a real polyline has at least two points; the default
covers the degenerate empty case, which no claim exercises). -/
def PolyLine.first_pt (pl : PolyLine) : Pt2D := pl.pts.headD (0, 0)

/-- `PolyLine::last_pt`. -/
def PolyLine.last_pt (pl : PolyLine) : Pt2D := pl.pts.getLastD (0, 0)

/-- The segments of a polyline: consecutive point pairs. -/
def PolyLine.segments (pl : PolyLine) : List (Pt2D × Pt2D) := pl.pts.zip pl.pts.tail

/-- Cross product of `q - p` and `r - p`: the orientation test underlying the
exact segment-intersection check. -/
def crossProd (p q r : Pt2D) : ℚ :=
  (q.1 - p.1) * (r.2 - p.2) - (q.2 - p.2) * (r.1 - p.1)

/-- `r` lies on the closed segment from `p` to `q`. -/
def onSegment (p q r : Pt2D) : Bool :=
  decide (crossProd p q r = 0 ∧
    min p.1 q.1 ≤ r.1 ∧ r.1 ≤ max p.1 q.1 ∧
    min p.2 q.2 ≤ r.2 ∧ r.2 ≤ max p.2 q.2)

/-- The open-interior ("proper") crossing test between segments `a b` and
`c d`: each segment's endpoints lie strictly on opposite sides of the other. -/
def properCrossing (a b c d : Pt2D) : Bool :=
  decide (((0 < crossProd a b c ∧ crossProd a b d < 0) ∨
           (crossProd a b c < 0 ∧ 0 < crossProd a b d)) ∧
          ((0 < crossProd c d a ∧ crossProd c d b < 0) ∨
           (crossProd c d a < 0 ∧ 0 < crossProd c d b)))

/-- Two closed segments share at least one point: either a proper crossing or
an endpoint of one lying on the other. -/
def segIntersects (s t : Pt2D × Pt2D) : Bool :=
  properCrossing s.1 s.2 t.1 t.2 ||
  onSegment s.1 s.2 t.1 || onSegment s.1 s.2 t.2 ||
  onSegment t.1 t.2 s.1 || onSegment t.1 t.2 s.2

/-- Modelled from the spec: `geom::PolyLine::intersection(&other).is_some()`
(the geom crate is outside the sources under consideration). The spec, §4.2
rule 6: "conflict iff their path geometries cross at any point (including
endpoints) — implemented as a geometric polyline-intersection test". Two
polylines cross iff some segment of one shares a point with some segment of
the other. -/
def polylinesIntersect (a b : PolyLine) : Bool :=
  a.segments.any (fun s => b.segments.any (fun t => segIntersects s t))

/-- `map_model::TurnID`: (parent intersection, src lane, dst lane). -/
structure TurnID where
  parent : Nat
  src : Nat
  dst : Nat
  deriving DecidableEq

/-- `map_model::TurnType`. -/
inductive TurnType where
  | Crosswalk
  | SharedSidewalkCorner
  | Straight
  | LaneChangeLeft
  | LaneChangeRight
  | Right
  | Left
  deriving DecidableEq

/-- `map_model::TurnPriority`. -/
inductive TurnPriority where
  | Banned
  | Yield
  | Protected
  deriving DecidableEq

/-- `map_model::Turn` (the `lookup_idx` debugging field is omitted; nothing in
the engine reads it). The `angle` accessor is modelled separately. -/
structure Turn where
  id : TurnID
  turn_type : TurnType
  geom : PolyLine
  /-- Empty except for `TurnType::Crosswalk`. -/
  other_crosswalk_ids : List TurnID
  deriving DecidableEq

/-- `Turn::between_sidewalks`. -/
def Turn.between_sidewalks (t : Turn) : Bool :=
  t.turn_type = TurnType.SharedSidewalkCorner || t.turn_type = TurnType.Crosswalk

/-- `Turn::conflicts_with`, following the source's rule order exactly. -/
def Turn.conflicts_with (a b : Turn) : Bool :=
  if a.turn_type = TurnType.SharedSidewalkCorner ∨
     b.turn_type = TurnType.SharedSidewalkCorner then false
  else if a.id = b.id then false
  else if a.between_sidewalks ∧ b.between_sidewalks then false
  else if a.geom.first_pt = b.geom.first_pt then false
  else if a.geom.last_pt = b.geom.last_pt then true
  else polylinesIntersect a.geom b.geom

/-- `Turn::angle` returns `atan2` of the displacement between the geometry's
endpoints; the angle's exact value is transcendental, so the model keeps the
determining data (the ordered endpoint pair) instead. No claim inspects it. -/
def Turn.angle (t : Turn) : Pt2D × Pt2D := (t.geom.first_pt, t.geom.last_pt)

/-- `map_model::TurnGroupID`. `from` is a Lean keyword, hence `fromR`. -/
structure TurnGroupID where
  fromR : Nat
  toR : Nat
  /-- `Some` exactly for crosswalk groups; the embedded `TurnID` keeps the two
  crossing directions at the same pair of roads distinct. -/
  crosswalk : Option TurnID
  deriving DecidableEq

/-- `map_model::TurnGroup`. -/
structure TurnGroup where
  id : TurnGroupID
  turn_type : TurnType
  members : List TurnID
  geom : PolyLine
  angle : Pt2D × Pt2D
  deriving DecidableEq

/-- `TurnGroup::conflicts_with`, following the source's rule order exactly. -/
def TurnGroup.conflicts_with (a b : TurnGroup) : Bool :=
  if a.id = b.id then false
  else if a.turn_type = TurnType.Crosswalk ∧ b.turn_type = TurnType.Crosswalk then false
  else if a.id.fromR = b.id.fromR then false
  else if a.id.toR = b.id.toR then true
  else polylinesIntersect a.geom b.geom

theorem segIntersects_comm (s t : Pt2D × Pt2D) :
    segIntersects s t = segIntersects t s := by
  rw [Bool.eq_iff_iff]
  simp only [segIntersects, properCrossing, Bool.or_eq_true, decide_eq_true_eq]
  tauto

theorem polylinesIntersect_comm (a b : PolyLine) :
    polylinesIntersect a b = polylinesIntersect b a := by
  rw [Bool.eq_iff_iff]
  simp only [polylinesIntersect, List.any_eq_true]
  constructor
  · rintro ⟨s, hs, t, ht, h⟩
    exact ⟨t, ht, s, hs, by rw [segIntersects_comm]; exact h⟩
  · rintro ⟨s, hs, t, ht, h⟩
    exact ⟨t, ht, s, hs, by rw [segIntersects_comm]; exact h⟩

theorem turn_conflicts_with_comm (a b : Turn) :
    Turn.conflicts_with a b = Turn.conflicts_with b a := by
  unfold Turn.conflicts_with
  rw [polylinesIntersect_comm]
  split_ifs <;> simp_all

theorem turn_conflicts_with_irrefl (a : Turn) :
    Turn.conflicts_with a a = false := by
  unfold Turn.conflicts_with
  split_ifs <;> simp_all

theorem group_conflicts_with_comm (a b : TurnGroup) :
    TurnGroup.conflicts_with a b = TurnGroup.conflicts_with b a := by
  unfold TurnGroup.conflicts_with
  rw [polylinesIntersect_comm]
  split_ifs <;> simp_all

theorem group_conflicts_with_irrefl (a : TurnGroup) :
    TurnGroup.conflicts_with a a = false := by
  unfold TurnGroup.conflicts_with
  split_ifs <;> simp_all

/-- C6: Conflict detection is symmetric and irreflexive at both levels: for
all turns `a` and `b`, `Turn::conflicts_with(a,b) == Turn::conflicts_with(b,a)`
and `Turn::conflicts_with(a,a) == false`; likewise for all turn groups with
`TurnGroup::conflicts_with`. -/
theorem conflicts_symmetric_irreflexive (a b : Turn) (g h : TurnGroup) :
    Turn.conflicts_with a b = Turn.conflicts_with b a ∧
    Turn.conflicts_with a a = false ∧
    TurnGroup.conflicts_with g h = TurnGroup.conflicts_with h g ∧
    TurnGroup.conflicts_with g g = false :=
  ⟨turn_conflicts_with_comm a b, turn_conflicts_with_irrefl a,
   group_conflicts_with_comm g h, group_conflicts_with_irrefl g⟩

/-! ## Ordered-set and ordered-map model

`BTreeSet<TurnGroupID>` and `BTreeMap<TurnGroupID, TurnGroup>` are modelled as
sorted duplicate-free lists, ordered by the lexicographic order the Rust
`#[derive(PartialOrd, Ord)]` produces (field declaration order; `None < Some`).
-/

/-- The derived Rust order on `TurnID`: lexicographic on (parent, src, dst). -/
def TurnID.le (a b : TurnID) : Bool :=
  decide (a.parent < b.parent ∨ (a.parent = b.parent ∧
    (a.src < b.src ∨ (a.src = b.src ∧ a.dst ≤ b.dst))))

/-- The derived Rust order on `Option<TurnID>`: `None` before `Some`. -/
def optTurnIDLe : Option TurnID → Option TurnID → Bool
  | none, _ => true
  | some _, none => false
  | some a, some b => TurnID.le a b

/-- The derived Rust order on `TurnGroupID`: lexicographic on
(from, to, crosswalk). -/
def TurnGroupID.le (a b : TurnGroupID) : Bool :=
  decide (a.fromR < b.fromR) ||
  (decide (a.fromR = b.fromR) &&
    (decide (a.toR < b.toR) ||
     (decide (a.toR = b.toR) && optTurnIDLe a.crosswalk b.crosswalk)))

/-- Positional insertion before the first element that is not below `g`;
only called when `g` is absent. -/
def insLeGID (g : TurnGroupID) : List TurnGroupID → List TurnGroupID
  | [] => [g]
  | x :: xs => if TurnGroupID.le g x then g :: x :: xs else x :: insLeGID g xs

/-- `BTreeSet<TurnGroupID>::insert`: no-op when present, sorted insertion
otherwise (extensionally the B-tree behaviour on its sorted invariant). -/
def insertGID (g : TurnGroupID) (l : List TurnGroupID) : List TurnGroupID :=
  if g ∈ l then l else insLeGID g l

/-- `BTreeSet<TurnGroupID>::remove` (on a duplicate-free list, filtering is
removal of the one occurrence). -/
def removeGID (g : TurnGroupID) (l : List TurnGroupID) : List TurnGroupID :=
  l.filter (fun x => x ≠ g)

theorem mem_insLeGID {x g : TurnGroupID} {l : List TurnGroupID} :
    x ∈ insLeGID g l ↔ x = g ∨ x ∈ l := by
  induction l with
  | nil => simp [insLeGID]
  | cons y ys ih =>
    by_cases h : TurnGroupID.le g y = true <;> simp [insLeGID, h, ih] <;> tauto

theorem mem_insertGID {x g : TurnGroupID} {l : List TurnGroupID} :
    x ∈ insertGID g l ↔ x = g ∨ x ∈ l := by
  unfold insertGID
  by_cases h : g ∈ l
  · simp only [if_pos h]
    constructor
    · exact Or.inr
    · rintro (rfl | hx)
      · exact h
      · exact hx
  · simp [if_neg h, mem_insLeGID]

theorem nodup_insLeGID {g : TurnGroupID} {l : List TurnGroupID}
    (hn : l.Nodup) (hg : g ∉ l) : (insLeGID g l).Nodup := by
  induction l with
  | nil => simp [insLeGID]
  | cons y ys ih =>
    rw [List.nodup_cons] at hn
    by_cases h : TurnGroupID.le g y = true
    · simp only [insLeGID, if_pos h, List.nodup_cons, List.mem_cons]
      exact ⟨fun hh => hg (by simp [hh]), hn.1, hn.2⟩
    · simp only [insLeGID, if_neg h, List.nodup_cons]
      refine ⟨fun hy => ?_, ih hn.2 (fun hh => hg (List.mem_cons_of_mem _ hh))⟩
      rcases mem_insLeGID.mp hy with rfl | hy2
      · exact hg (List.mem_cons_self _ _)
      · exact hn.1 hy2

theorem nodup_insertGID {g : TurnGroupID} {l : List TurnGroupID}
    (hn : l.Nodup) : (insertGID g l).Nodup := by
  unfold insertGID
  by_cases h : g ∈ l
  · simpa [if_pos h]
  · rw [if_neg h]
    exact nodup_insLeGID hn h

theorem mem_removeGID {x g : TurnGroupID} {l : List TurnGroupID} :
    x ∈ removeGID g l ↔ x ∈ l ∧ x ≠ g := by
  simp [removeGID]

theorem nodup_removeGID {g : TurnGroupID} {l : List TurnGroupID}
    (hn : l.Nodup) : (removeGID g l).Nodup :=
  hn.filter _

/-- The signal's `turn_groups` map. -/
abbrev TGMap : Type := List (TurnGroupID × TurnGroup)

/-- The keys of the map, in storage order. -/
def tgKeys (m : TGMap) : List TurnGroupID := m.map Prod.fst

/-- Positional insertion of a fresh binding before the first key not below it. -/
def insLeAssoc (kv : TurnGroupID × TurnGroup) : TGMap → TGMap
  | [] => [kv]
  | x :: xs => if TurnGroupID.le kv.1 x.1 then kv :: x :: xs else x :: insLeAssoc kv xs

/-- `BTreeMap::insert`: replace the binding when the key is present, sorted
insertion otherwise. -/
def insertAssoc (kv : TurnGroupID × TurnGroup) (l : TGMap) : TGMap :=
  if l.any (fun x => x.1 = kv.1) then l.map (fun x => if x.1 = kv.1 then kv else x)
  else insLeAssoc kv l

/-- `BTreeMap` indexing `map[&g]` / `map.get(&g).unwrap()`. A missing key
panics in Rust; the model returns a junk default, and every theorem whose
proof reaches a lookup carries a hypothesis that the key is present. -/
def lookupTG (m : TGMap) (g : TurnGroupID) : TurnGroup :=
  ((m.find? (fun kv => kv.1 = g)).map Prod.snd).getD
    { id := { fromR := 0, toR := 0, crosswalk := none },
      turn_type := TurnType.Straight, members := [],
      geom := { pts := [] }, angle := ((0, 0), (0, 0)) }

theorem mem_insLeAssoc {x kv : TurnGroupID × TurnGroup} {l : TGMap} :
    x ∈ insLeAssoc kv l ↔ x = kv ∨ x ∈ l := by
  induction l with
  | nil => simp [insLeAssoc]
  | cons y ys ih =>
    by_cases h : TurnGroupID.le kv.1 y.1 = true <;>
      simp [insLeAssoc, h, ih] <;> tauto

theorem mem_insertAssoc {x kv : TurnGroupID × TurnGroup} {l : TGMap} :
    x ∈ insertAssoc kv l ↔ x = kv ∨ (x ∈ l ∧ x.1 ≠ kv.1) := by
  unfold insertAssoc
  by_cases h : l.any (fun x => x.1 = kv.1) = true
  · simp only [if_pos h, List.mem_map]
    constructor
    · rintro ⟨y, hy, hxy⟩
      by_cases hk : y.1 = kv.1
      · left
        rw [if_pos hk] at hxy
        exact hxy.symm
      · right
        rw [if_neg hk] at hxy
        exact ⟨hxy ▸ hy, hxy ▸ hk⟩
    · rintro (rfl | ⟨hx, hk⟩)
      · rcases List.any_eq_true.mp h with ⟨y, hy, hk⟩
        exact ⟨y, hy, by simp_all⟩
      · exact ⟨x, hx, by rw [if_neg hk]⟩
  · rw [if_neg h, mem_insLeAssoc]
    constructor
    · rintro (rfl | hx)
      · exact Or.inl rfl
      · refine Or.inr ⟨hx, fun hk => ?_⟩
        rw [List.any_eq_true] at h
        push_neg at h
        exact absurd (decide_eq_true hk) (by simpa using h x hx)
    · tauto

theorem keys_mem_insertAssoc {k : TurnGroupID} {kv : TurnGroupID × TurnGroup}
    {l : TGMap} : k ∈ tgKeys (insertAssoc kv l) ↔ k = kv.1 ∨ k ∈ tgKeys l := by
  simp only [tgKeys, List.mem_map]
  constructor
  · rintro ⟨x, hx, rfl⟩
    rcases mem_insertAssoc.mp hx with rfl | ⟨hx2, _⟩
    · exact Or.inl rfl
    · exact Or.inr ⟨x, hx2, rfl⟩
  · rintro (rfl | ⟨x, hx, rfl⟩)
    · exact ⟨kv, mem_insertAssoc.mpr (Or.inl rfl), rfl⟩
    · by_cases hk : x.1 = kv.1
      · exact ⟨kv, mem_insertAssoc.mpr (Or.inl rfl), hk.symm⟩
      · exact ⟨x, mem_insertAssoc.mpr (Or.inr ⟨hx, hk⟩), rfl⟩

theorem keys_nodup_insertAssoc {kv : TurnGroupID × TurnGroup} {l : TGMap}
    (hn : (tgKeys l).Nodup) : (tgKeys (insertAssoc kv l)).Nodup := by
  unfold insertAssoc
  by_cases h : l.any (fun x => x.1 = kv.1) = true
  · rw [if_pos h]
    have : tgKeys (l.map (fun x => if x.1 = kv.1 then kv else x)) = tgKeys l := by
      simp only [tgKeys, List.map_map]
      apply List.map_congr_left
      intro x _
      by_cases hk : x.1 = kv.1 <;> simp [hk]
    rwa [this]
  · rw [if_neg h]
    rw [List.any_eq_true] at h
    push_neg at h
    have hfresh : kv.1 ∉ tgKeys l := by
      simp only [tgKeys, List.mem_map]
      rintro ⟨x, hx, hk⟩
      exact absurd (decide_eq_true hk) (by simpa using h x hx)
    clear h
    induction l with
    | nil => simp [insLeAssoc, tgKeys]
    | cons y ys ih =>
      simp only [tgKeys, List.map_cons, List.nodup_cons, List.mem_cons,
        not_or] at hn hfresh ⊢
      by_cases hle : TurnGroupID.le kv.1 y.1 = true
      · simp only [insLeAssoc, if_pos hle, tgKeys, List.map_cons, List.nodup_cons,
          List.mem_cons, not_or]
        exact ⟨⟨fun hh => hfresh.1 hh, hfresh.2⟩, hn.1, hn.2⟩
      · simp only [insLeAssoc, if_neg hle, tgKeys, List.map_cons, List.nodup_cons]
        constructor
        · intro hy
          have := (show ∀ k, k ∈ tgKeys (insLeAssoc kv ys) ↔ k = kv.1 ∨ k ∈ tgKeys ys by
            intro k
            simp only [tgKeys, List.mem_map]
            constructor
            · rintro ⟨x, hx, rfl⟩
              rcases mem_insLeAssoc.mp hx with rfl | hx2
              · exact Or.inl rfl
              · exact Or.inr ⟨x, hx2, rfl⟩
            · rintro (rfl | ⟨x, hx, rfl⟩)
              · exact ⟨kv, mem_insLeAssoc.mpr (Or.inl rfl), rfl⟩
              · exact ⟨x, mem_insLeAssoc.mpr (Or.inr hx), rfl⟩) y.1
          rcases this.mp hy with hh | hh
          · exact hfresh.1 hh.symm
          · exact hn.1 hh
        · exact ih hn.2 hfresh.2

/-! ## Map collaborator, phases and signals -/

/-- Junk value standing for the panic of a failed `Map::get_t` lookup. -/
def defaultTurn : Turn :=
  { id := ⟨0, 0, 0⟩, turn_type := TurnType.Straight, geom := ⟨[]⟩,
    other_crosswalk_ids := [] }

/-- Modelled from the spec: the `Map` collaborator (§6). `Road`, `Lane` and
`Intersection` live outside the sources under consideration, so the map is
the interface the spec names: its turn store (`turns: BTreeMap<TurnID, Turn>`
in `map.rs`, here a list keyed by `Turn.id`), `laneParentRoad` and
`roadsOfIntersection` (a road-id set per intersection, sorted and
duplicate-free like the `BTreeSet<RoadID>` it models). -/
structure Map where
  turns : List Turn
  laneParent : Nat → Nat
  iRoads : Nat → List Nat

/-- `Map::get_t` (panics on a missing id in Rust; junk default here). -/
def Map.get_t (m : Map) (tid : TurnID) : Turn :=
  (m.turns.find? (fun t => t.id = tid)).getD defaultTurn

/-- Modelled from the spec: `Map::get_turns_in_intersection` reads the
intersection's turn-id list (the `Intersection` struct is outside the sources
under consideration) and resolves each id; its contents are exactly the
stored turns whose id names this parent intersection. -/
def Map.get_turns_in_intersection (m : Map) (i : Nat) : List Turn :=
  m.turns.filter (fun t => t.id.parent = i)

/-- `map_model::Phase`: protected and yield group-id sets plus a duration. -/
structure Phase where
  protected_groups : List TurnGroupID
  yield_groups : List TurnGroupID
  duration : ℚ
  deriving DecidableEq

/-- `Phase::new`: empty sets, 30 seconds. -/
def Phase.new : Phase :=
  { protected_groups := [], yield_groups := [], duration := 30 }

/-- The body of `Phase::could_be_protected`, on a bare protected set. -/
def couldBeProtectedIds (g1 : TurnGroupID) (prot : List TurnGroupID)
    (turn_groups : TGMap) : Bool :=
  prot.all (fun g2 =>
    !(decide (g1 = g2) ||
      TurnGroup.conflicts_with (lookupTG turn_groups g1) (lookupTG turn_groups g2)))

/-- `Phase::could_be_protected`. -/
def Phase.could_be_protected (ph : Phase) (g1 : TurnGroupID)
    (turn_groups : TGMap) : Bool :=
  couldBeProtectedIds g1 ph.protected_groups turn_groups

/-- `Phase::get_priority_of_group`. -/
def Phase.get_priority_of_group (ph : Phase) (g : TurnGroupID) : TurnPriority :=
  if g ∈ ph.protected_groups then TurnPriority.Protected
  else if g ∈ ph.yield_groups then TurnPriority.Yield
  else TurnPriority.Banned

/-- The per-id body of `Phase::edit_group`'s final loop: remove the id from
both sets, then insert it into the set its new priority selects. -/
def Phase.applyPriority (ph : Phase) (pri : TurnPriority) (id : TurnGroupID) : Phase :=
  let p := removeGID id ph.protected_groups
  let y := removeGID id ph.yield_groups
  match pri with
  | TurnPriority.Protected => { ph with protected_groups := insertGID id p, yield_groups := y }
  | TurnPriority.Yield => { ph with protected_groups := p, yield_groups := insertGID id y }
  | TurnPriority.Banned => { ph with protected_groups := p, yield_groups := y }

/-- The id list `Phase::edit_group` edits: the group itself plus, for a
crosswalk group, the group of every sibling crosswalk turn (the `unwrap`s on
a missing crosswalk id or an unfindable sibling key panic in Rust; junk
defaults here, excluded by hypotheses wherever a theorem needs them). -/
def editGroupIds (g : TurnGroup) (turn_groups : TGMap) (m : Map) : List TurnGroupID :=
  g.id :: (if g.turn_type = TurnType.Crosswalk then
    ((m.get_t (g.id.crosswalk.getD ⟨0, 0, 0⟩)).other_crosswalk_ids).map
      (fun t => ((tgKeys turn_groups).find? (fun id => id.crosswalk = some t)).getD
        ⟨0, 0, none⟩)
  else [])

/-- `Phase::edit_group`. -/
def Phase.edit_group (ph : Phase) (g : TurnGroup) (pri : TurnPriority)
    (turn_groups : TGMap) (m : Map) : Phase :=
  (editGroupIds g turn_groups m).foldl (fun ph id => ph.applyPriority pri id) ph

/-- `map_model::ControlTrafficSignal`. -/
structure ControlTrafficSignal where
  id : Nat
  phases : List Phase
  offset : ℚ
  turn_groups : TGMap
  deriving DecidableEq

/-! ## TurnGroup::for_i -/

/-- `geom::Pt2D::center`: the arithmetic mean of a point set (exact here). -/
def Pt2D.center (pts : List Pt2D) : Pt2D :=
  ((pts.map Prod.fst).sum / pts.length, (pts.map Prod.snd).sum / pts.length)

/-- `turn_group_geom`: point-wise centroid when every member polyline has the
same point count, otherwise a copy of the first member's geometry (the source
logs a warning in that degenerate case). -/
def turn_group_geom (polylines : List PolyLine) : PolyLine :=
  let num_pts := (polylines.headD ⟨[]⟩).pts.length
  if polylines.all (fun pl => pl.pts.length = num_pts) then
    ⟨(List.range num_pts).map
      (fun idx => Pt2D.center (polylines.map (fun pl => pl.pts.getD idx (0, 0))))⟩
  else polylines.headD ⟨[]⟩

/-- Sorted insertion for `BTreeSet<TurnID>`. -/
def insLeTid (g : TurnID) : List TurnID → List TurnID
  | [] => [g]
  | x :: xs => if TurnID.le g x then g :: x :: xs else x :: insLeTid g xs

/-- `BTreeSet<TurnID>::insert`. -/
def insertTid (g : TurnID) (l : List TurnID) : List TurnID :=
  if g ∈ l then l else insLeTid g l

theorem mem_insLeTid {x g : TurnID} {l : List TurnID} :
    x ∈ insLeTid g l ↔ x = g ∨ x ∈ l := by
  induction l with
  | nil => simp [insLeTid]
  | cons y ys ih =>
    by_cases h : TurnID.le g y = true <;> simp [insLeTid, h, ih] <;> tauto

theorem mem_insertTid {x g : TurnID} {l : List TurnID} :
    x ∈ insertTid g l ↔ x = g ∨ x ∈ l := by
  unfold insertTid
  by_cases h : g ∈ l
  · simp only [if_pos h]
    constructor
    · exact Or.inr
    · rintro (rfl | hx)
      · exact h
      · exact hx
  · simp [if_neg h, mem_insLeTid]

/-- A turn the vehicle-group loop of `for_i` keeps: neither a crosswalk nor a
shared sidewalk corner. -/
def isVehicleTurn (t : Turn) : Bool :=
  !(decide (t.turn_type = TurnType.Crosswalk)) &&
  !(decide (t.turn_type = TurnType.SharedSidewalkCorner))

/-- The `(from, to)` road pair of a turn, via the lanes' parent roads. -/
def vehKey (m : Map) (t : Turn) : Nat × Nat :=
  (m.laneParent t.id.src, m.laneParent t.id.dst)

/-- The crosswalk singleton entry `for_i` inserts for a crosswalk turn. -/
def cwGroupEntry (m : Map) (t : Turn) : TurnGroupID × TurnGroup :=
  let id : TurnGroupID :=
    { fromR := m.laneParent t.id.src, toR := m.laneParent t.id.dst,
      crosswalk := some t.id }
  (id, { id := id, turn_type := TurnType.Crosswalk, members := [t.id],
         geom := t.geom, angle := t.angle })

/-- The source's mapping of member turn types before aggregation: the three
lane-compatible kinds collapse to `Straight` (`Crosswalk` and
`SharedSidewalkCorner` are unreachable in that match). -/
def mapVehTurnType : TurnType → TurnType
  | TurnType.Straight => TurnType.Straight
  | TurnType.LaneChangeLeft => TurnType.Straight
  | TurnType.LaneChangeRight => TurnType.Straight
  | tt => tt

/-- Position of a variant in the `TurnType` declaration, which is the derived
Rust `Ord` the `BTreeSet<TurnType>` sorts by. -/
def typeRank : TurnType → Nat
  | TurnType.Crosswalk => 0
  | TurnType.SharedSidewalkCorner => 1
  | TurnType.Straight => 2
  | TurnType.LaneChangeLeft => 3
  | TurnType.LaneChangeRight => 4
  | TurnType.Right => 5
  | TurnType.Left => 6

/-- `turn_types.iter().next().unwrap()`: the minimum of the collected set in
the derived order. -/
def minTurnType (l : List TurnType) : TurnType :=
  l.foldl (fun a b => if typeRank b < typeRank a then b else a)
    (l.headD TurnType.Straight)

/-- The member-id set of the vehicle group keyed `k` (the `MultiMap`'s
`BTreeSet<TurnID>` drops duplicates and sorts). -/
def vehMembers (m : Map) (ts : List Turn) (k : Nat × Nat) : List TurnID :=
  ((ts.filter (fun t => isVehicleTurn t && decide (vehKey m t = k))).map
    (fun t => t.id)).foldl (fun acc tid => insertTid tid acc) []

/-- The aggregated vehicle entry `for_i` inserts for a road pair `k`. -/
def vehGroupEntry (m : Map) (ts : List Turn) (k : Nat × Nat) :
    TurnGroupID × TurnGroup :=
  let members := vehMembers m ts k
  let id : TurnGroupID := { fromR := k.1, toR := k.2, crosswalk := none }
  (id, { id := id,
         turn_type := minTurnType (members.map
           (fun tid => mapVehTurnType (m.get_t tid).turn_type)),
         members := members,
         geom := turn_group_geom (members.map (fun tid => (m.get_t tid).geom)),
         angle := (m.get_t (members.headD ⟨0, 0, 0⟩)).angle })

/-- The first loop body of `for_i`: corner turns are skipped, crosswalk turns
insert their singleton group, vehicle turns are deferred to the grouping
pass. -/
def forIBaseStep (m : Map) (acc : TGMap) (t : Turn) : TGMap :=
  if t.turn_type = TurnType.SharedSidewalkCorner then acc
  else if t.turn_type = TurnType.Crosswalk then insertAssoc (cwGroupEntry m t) acc
  else acc

/-- The second loop body of `for_i`: insert the aggregated vehicle group of a
road pair. -/
def forIVehStep (m : Map) (ts : List Turn) (acc : TGMap) (k : Nat × Nat) : TGMap :=
  insertAssoc (vehGroupEntry m ts k) acc

/-- `TurnGroup::for_i`: crosswalk turns become singleton groups keyed by
their own id; other non-corner turns are grouped per `(from, to)` road pair;
corner turns are dropped. (The source panics when the result is empty; the
model returns the empty map, and theorems that would cross that panic carry a
non-emptiness hypothesis.) -/
def TurnGroup.for_i (i : Nat) (m : Map) : TGMap :=
  (((m.get_turns_in_intersection i).filter isVehicleTurn).map (vehKey m)).dedup.foldl
    (forIVehStep m (m.get_turns_in_intersection i))
    ((m.get_turns_in_intersection i).foldl (forIBaseStep m) [])

/-! ## Validation -/

/-- The two `Err` shapes of `ControlTrafficSignal::validate`, with the data
the formatted message carries. -/
inductive ValidateError where
  | coverage (missing irrelevant : List TurnGroupID)
  | conflict (g1 g2 : TurnGroup)
  deriving DecidableEq

/-- Outcome of `validate`: `Ok`, `Err`, or the abort of its `assert!`. -/
inductive ValidateResult where
  | ok (s : ControlTrafficSignal)
  | err (e : ValidateError)
  | panicked
  deriving DecidableEq

/-- The `actual_groups` accumulation of `validate`: protected then yield ids
of every phase, collected into one set. -/
def coverageActual (s : ControlTrafficSignal) : List TurnGroupID :=
  s.phases.foldl (fun acc ph =>
    ph.yield_groups.foldl (fun a g => insertGID g a)
      (ph.protected_groups.foldl (fun a g => insertGID g a) acc)) []

/-- The `expected_groups` set of `validate`: the keys of `turn_groups`. -/
def coverageExpected (s : ControlTrafficSignal) : List TurnGroupID :=
  (tgKeys s.turn_groups).foldl (fun a g => insertGID g a) []

/-- `BTreeSet` equality is element-set equality; on the canonical sorted
lists used here, mutual membership is exactly that. -/
def gidSetEq (a b : List TurnGroupID) : Bool :=
  a.all (fun g => g ∈ b) && b.all (fun g => g ∈ a)

/-- The first conflicting ordered pair among a phase's protected groups, in
iteration order — the pair `validate`'s nested loops would report. -/
def findConflictingPair (tgs : TGMap) (prot : List TurnGroupID) :
    Option (TurnGroup × TurnGroup) :=
  prot.findSome? (fun g1 =>
    (prot.find? (fun g2 =>
      TurnGroup.conflicts_with (lookupTG tgs g1) (lookupTG tgs g2))).map
    (fun g2 => (lookupTG tgs g1, lookupTG tgs g2)))

/-- The per-phase loop of `validate`: first conflicting protected pair is an
`Err`; a crosswalk group in a yield set trips the `assert!` (abort). -/
def validatePhases (s : ControlTrafficSignal) : List Phase → ValidateResult
  | [] => ValidateResult.ok s
  | ph :: rest =>
    match findConflictingPair s.turn_groups ph.protected_groups with
    | some (g1, g2) => ValidateResult.err (ValidateError.conflict g1 g2)
    | none =>
      if ph.yield_groups.all (fun g =>
          (lookupTG s.turn_groups g).turn_type ≠ TurnType.Crosswalk)
      then validatePhases s rest
      else ValidateResult.panicked

/-- `ControlTrafficSignal::validate`. -/
def ControlTrafficSignal.validate (s : ControlTrafficSignal) : ValidateResult :=
  if gidSetEq (coverageExpected s) (coverageActual s) then validatePhases s s.phases
  else ValidateResult.err (ValidateError.coverage
    ((coverageExpected s).filter (fun g => g ∉ coverageActual s))
    ((coverageActual s).filter (fun g => g ∉ coverageExpected s)))

/-! ## Phase-assignment policies -/

/-- The `remaining_groups.iter().position(...)` step of the greedy loop:
first group acceptable into the current protected set, plus the rest. -/
def pickProtected (tgs : TGMap) (prot : List TurnGroupID) :
    List TurnGroupID → Option (TurnGroupID × List TurnGroupID)
  | [] => none
  | g :: gs =>
    if couldBeProtectedIds g prot tgs then some (g, gs)
    else (pickProtected tgs prot gs).map (fun p => (p.1, g :: p.2))

theorem pickProtected_length {tgs : TGMap} {prot rem : List TurnGroupID}
    {g : TurnGroupID} {rest : List TurnGroupID}
    (h : pickProtected tgs prot rem = some (g, rest)) :
    rest.length + 1 = rem.length := by
  induction rem generalizing rest with
  | nil => simp [pickProtected] at h
  | cons y ys ih =>
    unfold pickProtected at h
    by_cases hc : couldBeProtectedIds y prot tgs = true
    · rw [if_pos hc] at h
      simp only [Option.some.injEq, Prod.mk.injEq] at h
      obtain ⟨rfl, rfl⟩ := h
      simp
    · rw [if_neg hc] at h
      rcases hop : pickProtected tgs prot ys with _ | ⟨g2, rest2⟩
      · rw [hop] at h
        simp at h
      · rw [hop] at h
        simp only [Option.map_some', Option.some.injEq, Prod.mk.injEq] at h
        obtain ⟨rfl, rfl⟩ := h
        simpa using ih hop

/-- One phase of the greedy partition: keep accepting the first acceptable
remaining group until none fits; return the phase's protected set and the
untouched remainder. -/
def buildGreedyPhase (tgs : TGMap) (rem prot : List TurnGroupID) :
    List TurnGroupID × List TurnGroupID :=
  match h : pickProtected tgs prot rem with
  | some p => buildGreedyPhase tgs p.2 (insertGID p.1 prot)
  | none => (prot, rem)
termination_by rem.length
decreasing_by
  have := pickProtected_length h
  omega

theorem buildGreedyPhase_rem_len_aux (tgs : TGMap) :
    ∀ (n : Nat) (rem prot : List TurnGroupID), rem.length ≤ n →
      (buildGreedyPhase tgs rem prot).2.length ≤ rem.length := by
  intro n
  induction n with
  | zero =>
    intro rem prot h
    obtain rfl : rem = [] := List.length_eq_zero.mp (Nat.le_zero.mp h)
    rw [buildGreedyPhase]
    simp [pickProtected]
  | succ n ih =>
    intro rem prot h
    rw [buildGreedyPhase]
    rcases hp : pickProtected tgs prot rem with _ | p
    · simp
    · simp only
      have hlen := pickProtected_length hp
      have h2 := ih p.2 (insertGID p.1 prot) (by omega)
      omega

theorem buildGreedyPhase_rem_length (tgs : TGMap) (rem prot : List TurnGroupID) :
    (buildGreedyPhase tgs rem prot).2.length ≤ rem.length :=
  buildGreedyPhase_rem_len_aux tgs rem.length rem prot (le_refl _)

theorem buildGreedyPhase_progress (tgs : TGMap) (g : TurnGroupID)
    (gs : List TurnGroupID) :
    (buildGreedyPhase tgs (g :: gs) []).2.length ≤ gs.length := by
  have hp : pickProtected tgs [] (g :: gs) = some (g, gs) := by
    simp [pickProtected, couldBeProtectedIds]
  rw [buildGreedyPhase, hp]
  exact buildGreedyPhase_rem_length tgs gs (insertGID g [])

/-- The outer greedy loop of `greedy_assignment`: each pass through the
source's `loop` either accepts the first acceptable group into the current
phase or closes it; the phase that gets closed is exactly
`buildGreedyPhase`'s result, and a freshly opened phase immediately accepts
the first remaining group, so the partition is one closed phase per
non-empty remainder. Every produced phase is `Phase::new()` with its
protected set filled in. -/
def greedyPhasesList (tgs : TGMap) (rem : List TurnGroupID) : List Phase :=
  match rem with
  | [] => []
  | g :: gs =>
    { Phase.new with protected_groups := (buildGreedyPhase tgs (g :: gs) []).1 } ::
      greedyPhasesList tgs (buildGreedyPhase tgs (g :: gs) []).2
termination_by rem.length
decreasing_by
  have := buildGreedyPhase_progress tgs x xs
  simp only [List.length_cons]
  omega

/-- `expand_all_phases`: add every group that could join a phase's protected
set without conflict, sweeping the keys in order against the growing set. -/
def expand_all_phases (phases : List Phase) (turn_groups : TGMap) : List Phase :=
  phases.map (fun ph => (tgKeys turn_groups).foldl (fun ph g =>
    if ph.could_be_protected g turn_groups then
      { ph with protected_groups := insertGID g ph.protected_groups }
    else ph) ph)

/-- `ControlTrafficSignal::greedy_assignment` up to its final
`validate().unwrap()` (the unwrap is the identity exactly when validation
succeeds, which the C3 theorem establishes). -/
def ControlTrafficSignal.greedy_assignment (m : Map) (intersection : Nat) :
    ControlTrafficSignal :=
  { id := intersection,
    phases := expand_all_phases
      (greedyPhasesList (TurnGroup.for_i intersection m)
        (tgKeys (TurnGroup.for_i intersection m)))
      (TurnGroup.for_i intersection m),
    offset := 0, turn_groups := TurnGroup.for_i intersection m }

/-- The loop body of `all_walk_all_yield`: a crosswalk group joins the
all-walk phase's protected set, anything else the all-yield phase's yield
set. -/
def awStep (wy : Phase × Phase) (kv : TurnGroupID × TurnGroup) : Phase × Phase :=
  if kv.2.turn_type = TurnType.Crosswalk then
    ({ wy.1 with protected_groups := insertGID kv.2.id wy.1.protected_groups }, wy.2)
  else (wy.1, { wy.2 with yield_groups := insertGID kv.2.id wy.2.yield_groups })

/-- The single pass of `all_walk_all_yield` over the groups, building the
(all-walk, all-yield) phase pair. -/
def allWalkYieldPair (tgs : TGMap) : Phase × Phase :=
  tgs.foldl awStep (Phase.new, Phase.new)

/-- `ControlTrafficSignal::all_walk_all_yield` up to its final
`validate().unwrap()`. -/
def ControlTrafficSignal.all_walk_all_yield (m : Map) (i : Nat) :
    ControlTrafficSignal :=
  { id := i,
    phases := [(allWalkYieldPair (TurnGroup.for_i i m)).1,
               (allWalkYieldPair (TurnGroup.for_i i m)).2],
    offset := 0, turn_groups := TurnGroup.for_i i m }

/-- `make_phases`: build each phase from `(roads, turn_type, protected)`
specs by editing in every matching group, then drop phases that stayed
empty. -/
def make_phases (m : Map) (i : Nat)
    (phase_specs : List (List (List Nat × TurnType × Bool))) : List Phase :=
  let turn_groups := TurnGroup.for_i i m
  (phase_specs.map (fun specs =>
    specs.foldl (fun phase spec =>
      (turn_groups.map Prod.snd).foldl (fun phase group =>
        if ¬(spec.1.contains group.id.fromR) ∨ spec.2.1 ≠ group.turn_type then phase
        else phase.edit_group group
          (if spec.2.2 then TurnPriority.Protected else TurnPriority.Yield)
          turn_groups m) phase) Phase.new)).filter
    (fun ph => !(ph.protected_groups.isEmpty && ph.yield_groups.isEmpty))

/-- `ControlTrafficSignal::three_way`. The `validate().ok()` at the end maps
`Err` to `None`; the `panicked` outcome (which would abort in Rust) is also
mapped to `None` and is unreachable for the inputs any theorem considers. -/
def ControlTrafficSignal.three_way (m : Map) (i : Nat) :
    Option ControlTrafficSignal :=
  if (m.iRoads i).length ≠ 3 then none
  else
    let turn_groups := TurnGroup.for_i i m
    match (turn_groups.map Prod.snd).find?
        (fun g => g.turn_type = TurnType.Straight) with
    | none => none
    | some straight =>
      let north := straight.id.fromR
      let south := straight.id.toR
      let east := ((m.iRoads i).filter (fun r => r ≠ north ∧ r ≠ south)).headD 0
      let phases := make_phases m i
        [[([north, south], TurnType.Straight, true),
          ([north, south], TurnType.Right, false),
          ([north, south], TurnType.Left, false),
          ([east], TurnType.Right, false),
          ([east], TurnType.Crosswalk, true)],
         [([east], TurnType.Straight, true),
          ([east], TurnType.Right, false),
          ([east], TurnType.Left, false),
          ([north, south], TurnType.Right, false),
          ([north, south], TurnType.Crosswalk, true)]]
      let ts : ControlTrafficSignal :=
        { id := i, phases := phases, offset := 0, turn_groups := turn_groups }
      match ts.validate with
      | ValidateResult.ok s => some s
      | _ => none

/-! ## convert_to_ped_scramble -/

/-- The `retain_btreeset` call of `convert_to_ped_scramble`: drop the
crosswalk groups from a protected set. -/
def stripCW (turn_groups : TGMap) (l : List TurnGroupID) : List TurnGroupID :=
  l.filter (fun g => (lookupTG turn_groups g).turn_type ≠ TurnType.Crosswalk)

/-- The promotion loop body of `convert_to_ped_scramble`: a yield group that
could be protected against the growing protected set is inserted there and
recorded in the promoted list. -/
def promoteStep (turn_groups : TGMap)
    (acc : List TurnGroupID × List TurnGroupID) (g : TurnGroupID) :
    List TurnGroupID × List TurnGroupID :=
  if couldBeProtectedIds g acc.1 turn_groups then (insertGID g acc.1, acc.2 ++ [g])
  else acc

/-- The per-phase pass of `convert_to_ped_scramble`: drop crosswalk groups
from the protected set, then promote each yield group that no longer
conflicts (checking against the protected set as it grows), and remove the
promoted ids from the yield set. The phase's yield set is unchanged by the
crosswalk strip, so the promotion sweeps the original yield set. -/
def stripAndPromote (turn_groups : TGMap) (ph : Phase) : Phase :=
  { protected_groups := (ph.yield_groups.foldl (promoteStep turn_groups)
      (stripCW turn_groups ph.protected_groups, [])).1,
    yield_groups := (ph.yield_groups.foldl (promoteStep turn_groups)
      (stripCW turn_groups ph.protected_groups, [])).2.foldl
      (fun y g => removeGID g y) ph.yield_groups,
    duration := ph.duration }

/-- The loop body building `convert_to_ped_scramble`'s final phase: each
crosswalk group is made protected (together with its siblings, through
`edit_group`). -/
def scrambleStep (turn_groups : TGMap) (m : Map) (ph : Phase)
    (kv : TurnGroupID × TurnGroup) : Phase :=
  if kv.2.turn_type = TurnType.Crosswalk then
    ph.edit_group kv.2 TurnPriority.Protected turn_groups m
  else ph

/-- The new final phase of `convert_to_ped_scramble`: every crosswalk group
(and, through `edit_group`, its siblings) made protected in a fresh phase. -/
def allWalkPhase (turn_groups : TGMap) (m : Map) : Phase :=
  turn_groups.foldl (scrambleStep turn_groups m) Phase.new

/-- `ControlTrafficSignal::convert_to_ped_scramble` (the `&mut self` update,
as a function from the old signal to the new one). -/
def ControlTrafficSignal.convert_to_ped_scramble (s : ControlTrafficSignal)
    (m : Map) : ControlTrafficSignal :=
  { s with phases := s.phases.map (stripAndPromote s.turn_groups) ++
      [allWalkPhase s.turn_groups m] }

/-! ## Signal timing state machine -/

/-- `Time::START_OF_DAY`. -/
def startOfDay : ℚ := 0

/-- Truncation toward zero, which is how the Rust `%` on `f64` rounds. -/
def ratTrunc (q : ℚ) : ℤ := if q < 0 then -(Int.floor (-q)) else Int.floor q

/-- The Rust `%` of `geom::Duration` (f64 remainder), exact over ℚ. -/
def rustMod (x c : ℚ) : ℚ := x - c * (ratTrunc (x / c) : ℚ)

/-- The total cycle length: the sum of all phase durations. -/
def ControlTrafficSignal.cycle_length (s : ControlTrafficSignal) : ℚ :=
  s.phases.foldl (fun acc p => acc + p.duration) 0

/-- The phase walk of `current_phase_and_remaining_time`: subtract each
phase's duration until the offset falls inside one; the source's final
`unreachable!()` is the `none` case. -/
def walkPhasesFrom (now_offset : ℚ) (idx : Nat) :
    List Phase → Option (Nat × Phase × ℚ)
  | [] => none
  | p :: ps =>
    if now_offset < p.duration then some (idx, p, p.duration - now_offset)
    else walkPhasesFrom (now_offset - p.duration) (idx + 1) ps

/-- `ControlTrafficSignal::current_phase_and_remaining_time`. -/
def ControlTrafficSignal.current_phase_and_remaining_time
    (s : ControlTrafficSignal) (now : ℚ) : Option (Nat × Phase × ℚ) :=
  walkPhasesFrom (rustMod ((now + s.offset) - startOfDay) s.cycle_length) 0 s.phases

/-! ## C7: periodicity of the timing state machine -/

theorem ratTrunc_of_nonneg {q : ℚ} (h : 0 ≤ q) : ratTrunc q = Int.floor q :=
  if_neg (not_lt.mpr h)

theorem rustMod_add_right {x c : ℚ} (hx : 0 ≤ x) (hc : 0 < c) :
    rustMod (x + c) c = rustMod x c := by
  unfold rustMod
  have h1 : (x + c) / c = x / c + 1 := by field_simp
  have h2 : 0 ≤ x / c := div_nonneg hx hc.le
  rw [h1, ratTrunc_of_nonneg (by linarith), ratTrunc_of_nonneg h2, Int.floor_add_one]
  push_cast
  ring

/-- C7: `current_phase_and_remaining_time` is periodic with period equal to
the cycle length: for every signal with positive total cycle length and every
(nonnegative, as simulation times are) time `now`, the query at
`now + cycleLength` returns the same (phase index, phase, remaining time)
triple as the query at `now`. -/
theorem current_phase_and_remaining_time_periodic
    (s : ControlTrafficSignal) (now : ℚ)
    (hc : 0 < s.cycle_length) (hnow : startOfDay ≤ now) (hoff : 0 ≤ s.offset) :
    s.current_phase_and_remaining_time (now + s.cycle_length) =
      s.current_phase_and_remaining_time now := by
  unfold ControlTrafficSignal.current_phase_and_remaining_time
  have he : now + s.cycle_length + s.offset - startOfDay
      = (now + s.offset - startOfDay) + s.cycle_length := by ring
  rw [he, rustMod_add_right (by simp only [startOfDay] at hnow ⊢; linarith) hc]

/-- A two-phase signal (30 s and 20 s) with no groups, for the C7 witness. -/
def sigC7 : ControlTrafficSignal :=
  { id := 0,
    phases := [{ protected_groups := [], yield_groups := [], duration := 30 },
               { protected_groups := [], yield_groups := [], duration := 20 }],
    offset := 0, turn_groups := [] }

theorem current_phase_periodic_witness :
    sigC7.current_phase_and_remaining_time (35 + sigC7.cycle_length) =
      sigC7.current_phase_and_remaining_time 35 :=
  current_phase_and_remaining_time_periodic sigC7 35
    (by norm_num [ControlTrafficSignal.cycle_length, sigC7])
    (by norm_num [startOfDay])
    (by norm_num [sigC7])

/-! ## C9: three_way is inapplicable without a straight group -/

/-- C9: For every intersection with exactly 3 roads whose (non-empty, as the
source's `for_i` panic guarantees) movement groups contain no group with
turn_type `Straight`, the `three_way` policy returns `None`. -/
theorem three_way_none_without_straight (m : Map) (i : Nat)
    (h3 : (m.iRoads i).length = 3)
    (hne : TurnGroup.for_i i m ≠ [])
    (hns : ∀ kv ∈ TurnGroup.for_i i m, kv.2.turn_type ≠ TurnType.Straight) :
    ControlTrafficSignal.three_way m i = none := by
  unfold ControlTrafficSignal.three_way
  have hfind : (List.map Prod.snd (TurnGroup.for_i i m)).find?
      (fun g => g.turn_type = TurnType.Straight) = none := by
    rw [List.find?_eq_none]
    intro g hg
    simp only [List.mem_map] at hg
    obtain ⟨kv, hkv, rfl⟩ := hg
    simpa using hns kv hkv
  simp only [h3, ne_eq, not_true_eq_false, if_false, hfind]

/-- A 3-road intersection whose only movement is one crosswalk turn, giving a
single movement group of type `Crosswalk` (so no `Straight` group). -/
def mapC9 : Map :=
  { turns := [{ id := ⟨0, 0, 1⟩, turn_type := TurnType.Crosswalk,
                geom := ⟨[(0, 0), (1, 0)]⟩, other_crosswalk_ids := [] }],
    laneParent := fun l => l,
    iRoads := fun _ => [0, 1, 2] }

theorem three_way_none_witness : ControlTrafficSignal.three_way mapC9 0 = none :=
  three_way_none_without_straight mapC9 0 (by decide)
    (by decide) (by decide)

/-! ## Validate: coverage characterization (C4, C5, C2) -/

theorem mem_foldl_insertGID {x : TurnGroupID} (l init : List TurnGroupID) :
    x ∈ l.foldl (fun a g => insertGID g a) init ↔ x ∈ init ∨ x ∈ l := by
  induction l generalizing init with
  | nil => simp
  | cons y ys ih =>
    simp only [List.foldl_cons, ih, mem_insertGID, List.mem_cons]
    tauto

theorem nodup_foldl_insertGID (l : List TurnGroupID) {init : List TurnGroupID}
    (h : init.Nodup) : (l.foldl (fun a g => insertGID g a) init).Nodup := by
  induction l generalizing init with
  | nil => simpa
  | cons y ys ih => exact ih (nodup_insertGID h)

theorem mem_coverageExpected {s : ControlTrafficSignal} {x : TurnGroupID} :
    x ∈ coverageExpected s ↔ x ∈ tgKeys s.turn_groups := by
  unfold coverageExpected
  rw [mem_foldl_insertGID]
  simp

theorem nodup_coverageExpected (s : ControlTrafficSignal) :
    (coverageExpected s).Nodup :=
  nodup_foldl_insertGID _ List.nodup_nil

theorem mem_coverageActual {s : ControlTrafficSignal} {x : TurnGroupID} :
    x ∈ coverageActual s ↔
      ∃ ph ∈ s.phases, x ∈ ph.protected_groups ∨ x ∈ ph.yield_groups := by
  unfold coverageActual
  suffices h : ∀ (phs : List Phase) (init : List TurnGroupID),
      x ∈ phs.foldl (fun acc ph =>
        ph.yield_groups.foldl (fun a g => insertGID g a)
          (ph.protected_groups.foldl (fun a g => insertGID g a) acc)) init ↔
      x ∈ init ∨ ∃ ph ∈ phs, x ∈ ph.protected_groups ∨ x ∈ ph.yield_groups by
    rw [h]
    simp
  intro phs
  induction phs with
  | nil => simp
  | cons ph rest ih =>
    intro init
    simp only [List.foldl_cons, ih, mem_foldl_insertGID, List.mem_cons]
    constructor
    · rintro (((h | h) | h) | ⟨q, hq, h⟩)
      · exact Or.inl h
      · exact Or.inr ⟨ph, Or.inl rfl, Or.inl h⟩
      · exact Or.inr ⟨ph, Or.inl rfl, Or.inr h⟩
      · exact Or.inr ⟨q, Or.inr hq, h⟩
    · rintro (h | ⟨q, (rfl | hq), h⟩)
      · exact Or.inl (Or.inl (Or.inl h))
      · rcases h with h | h
        · exact Or.inl (Or.inl (Or.inr h))
        · exact Or.inl (Or.inr h)
      · exact Or.inr ⟨q, hq, h⟩

theorem gidSetEq_iff {a b : List TurnGroupID} :
    gidSetEq a b = true ↔ (∀ x ∈ a, x ∈ b) ∧ (∀ x ∈ b, x ∈ a) := by
  simp [gidSetEq, List.all_eq_true]

theorem validatePhases_ne_coverage {s : ControlTrafficSignal} {l : List Phase}
    {miss extra : List TurnGroupID} :
    validatePhases s l ≠ ValidateResult.err (ValidateError.coverage miss extra) := by
  induction l with
  | nil => simp [validatePhases]
  | cons ph rest ih =>
    unfold validatePhases
    rcases h : findConflictingPair s.turn_groups ph.protected_groups with _ | ⟨g1, g2⟩
    · simp only
      split
      · exact ih
      · simp
    · simp

theorem validatePhases_ok_yields {s s' : ControlTrafficSignal} {l : List Phase}
    (h : validatePhases s l = ValidateResult.ok s') :
    ∀ ph ∈ l, ∀ g ∈ ph.yield_groups,
      (lookupTG s.turn_groups g).turn_type ≠ TurnType.Crosswalk := by
  induction l with
  | nil => simp
  | cons ph rest ih =>
    unfold validatePhases at h
    rcases hc : findConflictingPair s.turn_groups ph.protected_groups with _ | ⟨g1, g2⟩
    · rw [hc] at h
      simp only at h
      split at h
      · rename_i hall
        intro q hq g hg
        rcases List.mem_cons.mp hq with rfl | hq
        · exact of_decide_eq_true (List.all_eq_true.mp hall g hg)
        · exact ih h q hq g hg
      · exact absurd h (by simp)
    · rw [hc] at h
      exact absurd h (by simp)

theorem filter_eq_singleton_of_unique {α : Type} {l : List α} {p : α → Bool}
    {x : α} (hn : l.Nodup) (hx : x ∈ l) (hp : ∀ y ∈ l, (p y = true ↔ y = x)) :
    l.filter p = [x] := by
  induction l with
  | nil => cases hx
  | cons a ys ih =>
    rw [List.nodup_cons] at hn
    rcases List.mem_cons.mp hx with rfl | hx2
    · have ha : p x = true := (hp x (List.mem_cons_self _ _)).mpr rfl
      have hrest : ys.filter p = [] := by
        rw [List.filter_eq_nil_iff]
        intro z hz hpz
        apply hn.1
        rw [← (hp z (List.mem_cons_of_mem _ hz)).mp hpz]
        exact hz
      simp [List.filter_cons, ha, hrest]
    · have ha : p a = false := by
        cases hb : p a with
        | false => rfl
        | true =>
          exact absurd (by rw [(hp a (List.mem_cons_self _ _)).mp hb]; exact hx2) hn.1
      rw [List.filter_cons]
      simp only [ha, Bool.false_eq_true, if_false]
      exact ih hn.2 hx2 (fun z hz => hp z (List.mem_cons_of_mem _ hz))

/-- C4: validate accepts a signal's coverage iff the union over all phases of
protected and yield groups equals exactly the key set of `turn_groups`; on
mismatch it returns an error reporting both the missing set (expected minus
actual) and the extraneous set (actual minus expected); in particular a
hand-built signal omitting exactly one group from all phases fails with
exactly that group named as missing (and nothing extraneous). -/
theorem validate_coverage_check (s : ControlTrafficSignal) :
    ((∃ miss extra, s.validate = ValidateResult.err (ValidateError.coverage miss extra)) ↔
      ¬(∀ x, x ∈ coverageActual s ↔ x ∈ tgKeys s.turn_groups)) ∧
    (∀ miss extra,
      s.validate = ValidateResult.err (ValidateError.coverage miss extra) →
      miss = (coverageExpected s).filter (fun g => g ∉ coverageActual s) ∧
      extra = (coverageActual s).filter (fun g => g ∉ coverageExpected s)) ∧
    (∀ g, g ∈ tgKeys s.turn_groups → g ∉ coverageActual s →
      (∀ x ∈ coverageActual s, x ∈ tgKeys s.turn_groups) →
      (∀ x ∈ tgKeys s.turn_groups, x ≠ g → x ∈ coverageActual s) →
      s.validate = ValidateResult.err (ValidateError.coverage [g] [])) := by
  refine ⟨⟨fun h hx => ?_, fun h => ?_⟩, fun miss extra h => ?_, fun g hg hga hae hea => ?_⟩
  · obtain ⟨miss, extra, h⟩ := h
    unfold ControlTrafficSignal.validate at h
    split at h
    · exact absurd h validatePhases_ne_coverage
    · rename_i hne
      rw [gidSetEq_iff] at hne
      apply hne
      constructor
      · intro x hxe
        exact (hx x).mpr (mem_coverageExpected.mp hxe)
      · intro x hxa
        exact mem_coverageExpected.mpr ((hx x).mp hxa)
  · unfold ControlTrafficSignal.validate
    split
    · rename_i heq
      exfalso
      rw [gidSetEq_iff] at heq
      exact h (fun x => ⟨fun hx => mem_coverageExpected.mp (heq.2 x hx),
        fun hx => heq.1 x (mem_coverageExpected.mpr hx)⟩)
    · exact ⟨_, _, rfl⟩
  · unfold ControlTrafficSignal.validate at h
    split at h
    · exact absurd h validatePhases_ne_coverage
    · simp only [ValidateResult.err.injEq, ValidateError.coverage.injEq] at h
      exact ⟨h.1.symm, h.2.symm⟩
  · have hne : ¬(gidSetEq (coverageExpected s) (coverageActual s) = true) := by
      rw [gidSetEq_iff]
      rintro ⟨he, _⟩
      exact hga (he g (mem_coverageExpected.mpr hg))
    unfold ControlTrafficSignal.validate
    rw [if_neg hne]
    have hmiss : (coverageExpected s).filter (fun x => x ∉ coverageActual s) = [g] := by
      apply filter_eq_singleton_of_unique (nodup_coverageExpected s)
        (mem_coverageExpected.mpr hg)
      intro y hy
      simp only [decide_eq_true_eq]
      constructor
      · intro hyna
        by_contra hne2
        exact hyna (hea y (mem_coverageExpected.mp hy) hne2)
      · rintro rfl
        exact hga
    have hextra : (coverageActual s).filter (fun x => x ∉ coverageExpected s) = [] := by
      simp only [List.filter_eq_nil_iff, decide_eq_true_eq]
      intro x hx hmem
      exact hmem (mem_coverageExpected.mpr (hae x hx))
    rw [hmiss, hextra]

/-- A straight movement group from road 0 to road 1 (for concrete signals). -/
def grpA : TurnGroup :=
  { id := ⟨0, 1, none⟩, turn_type := TurnType.Straight, members := [⟨0, 0, 1⟩],
    geom := ⟨[(0, 0), (1, 0)]⟩, angle := ((0, 0), (1, 0)) }

/-- A straight movement group from road 1 to road 0. -/
def grpB : TurnGroup :=
  { id := ⟨1, 0, none⟩, turn_type := TurnType.Straight, members := [⟨0, 2, 3⟩],
    geom := ⟨[(1, 1), (0, 1)]⟩, angle := ((1, 1), (0, 1)) }

/-- A hand-built signal whose phases omit `grpB` entirely. -/
def sigC4 : ControlTrafficSignal :=
  { id := 0,
    phases := [{ protected_groups := [⟨0, 1, none⟩], yield_groups := [], duration := 30 }],
    offset := 0,
    turn_groups := [(⟨0, 1, none⟩, grpA), (⟨1, 0, none⟩, grpB)] }

theorem validate_coverage_witness :
    sigC4.validate = ValidateResult.err (ValidateError.coverage [⟨1, 0, none⟩] []) :=
  (validate_coverage_check sigC4).2.2 ⟨1, 0, none⟩ (by decide) (by decide)
    (by decide) (by decide)

/-! ## C5: validate and degenerate signals -/

/-- A signal whose single phase has duration 0: total cycle length is zero. -/
def sigC5zero : ControlTrafficSignal :=
  { id := 0,
    phases := [{ protected_groups := [⟨0, 1, none⟩], yield_groups := [], duration := 0 }],
    offset := 0, turn_groups := [(⟨0, 1, none⟩, grpA)] }

/-- A signal with no phases and no groups. -/
def sigC5empty : ControlTrafficSignal :=
  { id := 0, phases := [], offset := 0, turn_groups := [] }

/-- C5 counterexample: `validate` does not reject degenerate signals. A
zero-total-cycle-length signal passes validation (`Ok`), and so does a
zero-phase signal whose `turn_groups` is empty — contradicting the claim
that every such signal is rejected with an error. -/
theorem validate_degenerate_counterexample :
    sigC5zero.validate = ValidateResult.ok sigC5zero ∧
    sigC5zero.cycle_length = 0 ∧
    sigC5empty.validate = ValidateResult.ok sigC5empty ∧
    sigC5empty.phases = [] :=
  ⟨by decide, by simp [ControlTrafficSignal.cycle_length, sigC5zero], by decide, rfl⟩

/-- C5 amended: validate rejects (with a coverage error listing every group
as missing) exactly the zero-phase signals whose `turn_groups` map is
non-empty; it inspects no durations, so a zero total cycle length alone
passes (see the counterexample). -/
theorem validate_zero_phases_rejected (s : ControlTrafficSignal)
    (hp : s.phases = []) (hg : s.turn_groups ≠ []) :
    s.validate = ValidateResult.err (ValidateError.coverage (coverageExpected s) []) := by
  have hact : coverageActual s = [] := by
    unfold coverageActual
    rw [hp]
    rfl
  have hne : ¬(gidSetEq (coverageExpected s) (coverageActual s) = true) := by
    rw [gidSetEq_iff]
    rintro ⟨he, _⟩
    rcases hmap : s.turn_groups with _ | ⟨kv, rest⟩
    · exact hg hmap
    · have hk : kv.1 ∈ coverageExpected s := by
        rw [mem_coverageExpected, tgKeys, hmap]
        exact List.mem_map_of_mem _ (List.mem_cons_self _ _)
      have := he kv.1 hk
      rw [hact] at this
      cases this
  unfold ControlTrafficSignal.validate
  rw [if_neg hne]
  have h1 : (coverageExpected s).filter (fun g => g ∉ coverageActual s) =
      coverageExpected s := by
    rw [hact]
    simp
  have h2 : (coverageActual s).filter (fun g => g ∉ coverageExpected s) = [] := by
    rw [hact]
    rfl
  rw [h1, h2]

/-- A zero-phase signal with one group, for the C5 amended witness. -/
def sigC5w : ControlTrafficSignal :=
  { id := 0, phases := [], offset := 0, turn_groups := [(⟨0, 1, none⟩, grpA)] }

theorem validate_zero_phases_witness :
    sigC5w.validate =
      ValidateResult.err (ValidateError.coverage (coverageExpected sigC5w) []) :=
  validate_zero_phases_rejected sigC5w rfl (by decide)

/-! ## C2: crosswalk groups in a yield set -/

/-- A crosswalk movement group (road 0 to road 1, crossing turn (0,0,1)). -/
def grpCW : TurnGroup :=
  { id := ⟨0, 1, some ⟨0, 0, 1⟩⟩, turn_type := TurnType.Crosswalk,
    members := [⟨0, 0, 1⟩], geom := ⟨[(0, 0), (1, 0)]⟩, angle := ((0, 0), (1, 0)) }

/-- A signal whose only phase puts its single crosswalk group in the yield
set (coverage is satisfied, and there is no protected conflict). -/
def sigC2 : ControlTrafficSignal :=
  { id := 0,
    phases := [{ protected_groups := [], yield_groups := [⟨0, 1, some ⟨0, 0, 1⟩⟩],
                 duration := 30 }],
    offset := 0,
    turn_groups := [(⟨0, 1, some ⟨0, 0, 1⟩⟩, grpCW)] }

/-- C2 counterexample: on a signal with a crosswalk group in a yield set
that passes the earlier checks, `validate` does not return an error — it
trips its `assert!` and aborts (modelled as `panicked`). -/
theorem validate_crosswalk_yield_counterexample :
    (∃ ph ∈ sigC2.phases, ∃ g ∈ ph.yield_groups,
      (lookupTG sigC2.turn_groups g).turn_type = TurnType.Crosswalk) ∧
    sigC2.validate = ValidateResult.panicked :=
  ⟨by decide, by decide⟩

/-- C2 amended: `validate` never succeeds on a candidate signal in which some
phase's yield set contains a crosswalk group: it returns an error from an
earlier check (coverage or protected-conflict) or aborts at the
crosswalk-in-yield assertion, but never returns the signal as valid. -/
theorem validate_crosswalk_in_yield_never_ok (s : ControlTrafficSignal)
    (h : ∃ ph ∈ s.phases, ∃ g ∈ ph.yield_groups,
      (lookupTG s.turn_groups g).turn_type = TurnType.Crosswalk) :
    ∀ s', s.validate ≠ ValidateResult.ok s' := by
  intro s' hok
  unfold ControlTrafficSignal.validate at hok
  split at hok
  · obtain ⟨ph, hph, g, hgy, hcw⟩ := h
    exact validatePhases_ok_yields hok ph hph g hgy hcw
  · exact absurd hok (by simp)

theorem validate_crosswalk_in_yield_never_ok_witness :
    sigC2.validate ≠ ValidateResult.ok sigC2 :=
  validate_crosswalk_in_yield_never_ok sigC2 (by decide) sigC2

/-! ## C10: edit_group applies a crosswalk edit to all sibling groups -/

theorem get_priority_applyPriority (ph : Phase) (pri : TurnPriority)
    (id id' : TurnGroupID) :
    (ph.applyPriority pri id).get_priority_of_group id' =
      if id' = id then pri else ph.get_priority_of_group id' := by
  unfold Phase.applyPriority Phase.get_priority_of_group
  cases pri <;> by_cases h : id' = id <;>
    simp only [h, if_pos, if_neg, mem_insertGID, mem_removeGID] <;>
    split_ifs <;> simp_all [mem_insertGID, mem_removeGID]

theorem get_priority_foldl_not_mem (ids : List TurnGroupID) (ph : Phase)
    (pri : TurnPriority) (id : TurnGroupID) (h : id ∉ ids) :
    (ids.foldl (fun ph i => ph.applyPriority pri i) ph).get_priority_of_group id =
      ph.get_priority_of_group id := by
  induction ids generalizing ph with
  | nil => rfl
  | cons i rest ih =>
    rw [List.mem_cons, not_or] at h
    rw [List.foldl_cons, ih _ h.2, get_priority_applyPriority, if_neg h.1]

theorem get_priority_foldl_mem (ids : List TurnGroupID) (ph : Phase)
    (pri : TurnPriority) (id : TurnGroupID) (h : id ∈ ids) :
    (ids.foldl (fun ph i => ph.applyPriority pri i) ph).get_priority_of_group id =
      pri := by
  induction ids generalizing ph with
  | nil => cases h
  | cons i rest ih =>
    rw [List.foldl_cons]
    by_cases hr : id ∈ rest
    · exact ih _ hr
    · rcases List.mem_cons.mp h with rfl | h2
      · rw [get_priority_foldl_not_mem _ _ _ _ hr, get_priority_applyPriority,
          if_pos rfl]
      · exact absurd h2 hr

/-- C10: When `Phase::edit_group` is applied to a group whose turn_type is
Crosswalk, the same priority is also applied to every sibling crosswalk group
(the groups whose embedded crosswalk turn id appears in the turn's
`other_crosswalk_ids`), so after the edit the crosswalk group and all its
siblings have the identical priority in that phase. (The hypotheses are the
invariants `for_i` establishes: the group's embedded crosswalk id exists,
each sibling turn has a group keyed by it, and crosswalk keys are unique.) -/
theorem edit_group_crosswalk_siblings (ph : Phase) (g : TurnGroup)
    (pri : TurnPriority) (tgs : TGMap) (m : Map) (t0 : TurnID)
    (hcw : g.turn_type = TurnType.Crosswalk)
    (hid : g.id.crosswalk = some t0)
    (hfind : ∀ t ∈ (m.get_t t0).other_crosswalk_ids,
      ∃ k ∈ tgKeys tgs, k.crosswalk = some t)
    (huniq : ∀ k1 ∈ tgKeys tgs, ∀ k2 ∈ tgKeys tgs,
      k1.crosswalk.isSome → k1.crosswalk = k2.crosswalk → k1 = k2) :
    (ph.edit_group g pri tgs m).get_priority_of_group g.id = pri ∧
    ∀ k ∈ tgKeys tgs,
      (∃ t ∈ (m.get_t t0).other_crosswalk_ids, k.crosswalk = some t) →
      (ph.edit_group g pri tgs m).get_priority_of_group k = pri := by
  unfold Phase.edit_group
  constructor
  · exact get_priority_foldl_mem _ _ _ _ (List.mem_cons_self _ _)
  · rintro k hk ⟨t, ht, hkt⟩
    apply get_priority_foldl_mem
    unfold editGroupIds
    rw [if_pos hcw, hid]
    apply List.mem_cons_of_mem
    rw [List.mem_map]
    refine ⟨t, ht, ?_⟩
    have hsome : ((tgKeys tgs).find? (fun id => id.crosswalk = some t)).isSome := by
      rw [List.find?_isSome]
      obtain ⟨k', hk', hk't⟩ := hfind t ht
      exact ⟨k', hk', by simpa using hk't⟩
    obtain ⟨k', hfk'⟩ := Option.isSome_iff_exists.mp hsome
    have hk'mem := List.mem_of_find?_eq_some hfk'
    have hk'p : k'.crosswalk = some t := by
      simpa using List.find?_some hfk'
    rw [hfk']
    exact (huniq k' hk'mem k hk (by simp [hk'p]) (by rw [hk'p, hkt])) ▸ rfl

/-- First of two sibling crosswalk turns at intersection 0. -/
def turnC10a : Turn :=
  { id := ⟨0, 0, 1⟩, turn_type := TurnType.Crosswalk,
    geom := ⟨[(0, 0), (1, 0)]⟩, other_crosswalk_ids := [⟨0, 2, 3⟩] }

/-- Second sibling crosswalk turn. -/
def turnC10b : Turn :=
  { id := ⟨0, 2, 3⟩, turn_type := TurnType.Crosswalk,
    geom := ⟨[(1, 0), (0, 0)]⟩, other_crosswalk_ids := [⟨0, 0, 1⟩] }

/-- A map holding just the two sibling crosswalk turns. -/
def mapC10 : Map :=
  { turns := [turnC10a, turnC10b], laneParent := fun l => l,
    iRoads := fun _ => [0, 2] }

/-- The crosswalk group of `turnC10a`. -/
def grpC10a : TurnGroup :=
  { id := ⟨0, 1, some ⟨0, 0, 1⟩⟩, turn_type := TurnType.Crosswalk,
    members := [⟨0, 0, 1⟩], geom := turnC10a.geom, angle := ((0, 0), (1, 0)) }

/-- The crosswalk group of `turnC10b`. -/
def grpC10b : TurnGroup :=
  { id := ⟨2, 3, some ⟨0, 2, 3⟩⟩, turn_type := TurnType.Crosswalk,
    members := [⟨0, 2, 3⟩], geom := turnC10b.geom, angle := ((1, 0), (0, 0)) }

/-- The `turn_groups` map with the two sibling crosswalk groups. -/
def tgsC10 : TGMap :=
  [(⟨0, 1, some ⟨0, 0, 1⟩⟩, grpC10a), (⟨2, 3, some ⟨0, 2, 3⟩⟩, grpC10b)]

theorem edit_group_crosswalk_siblings_witness :
    (Phase.new.edit_group grpC10a TurnPriority.Protected tgsC10
        mapC10).get_priority_of_group grpC10a.id = TurnPriority.Protected ∧
    (Phase.new.edit_group grpC10a TurnPriority.Protected tgsC10
        mapC10).get_priority_of_group ⟨2, 3, some ⟨0, 2, 3⟩⟩ =
      TurnPriority.Protected :=
  ⟨(edit_group_crosswalk_siblings Phase.new grpC10a TurnPriority.Protected tgsC10
      mapC10 ⟨0, 0, 1⟩ (by decide) (by decide) (by decide) (by decide)).1,
   (edit_group_crosswalk_siblings Phase.new grpC10a TurnPriority.Protected tgsC10
      mapC10 ⟨0, 0, 1⟩ (by decide) (by decide) (by decide) (by decide)).2
     ⟨2, 3, some ⟨0, 2, 3⟩⟩ (by decide) (by decide)⟩

/-! ## C3: the two fallback policies always validate -/

/-- A protected set with no conflicting pair (in either order), through the
signal's group map. -/
def ProtOk (tgs : TGMap) (prot : List TurnGroupID) : Prop :=
  ∀ g1 ∈ prot, ∀ g2 ∈ prot,
    TurnGroup.conflicts_with (lookupTG tgs g1) (lookupTG tgs g2) = false

theorem couldBeProtectedIds_spec {g : TurnGroupID} {prot : List TurnGroupID}
    {tgs : TGMap} (h : couldBeProtectedIds g prot tgs = true) :
    ∀ g2 ∈ prot, g ≠ g2 ∧
      TurnGroup.conflicts_with (lookupTG tgs g) (lookupTG tgs g2) = false := by
  intro g2 h2
  have hx := List.all_eq_true.mp h g2 h2
  simpa using hx

theorem couldBeProtectedIds_mono {g : TurnGroupID} {p q : List TurnGroupID}
    {tgs : TGMap} (hpq : ∀ x ∈ p, x ∈ q)
    (h : couldBeProtectedIds g q tgs = true) :
    couldBeProtectedIds g p tgs = true := by
  rw [couldBeProtectedIds, List.all_eq_true] at h ⊢
  exact fun x hx => h x (hpq x hx)

theorem ProtOk_nil (tgs : TGMap) : ProtOk tgs [] := by
  intro g1 h1
  cases h1

theorem ProtOk_insert {tgs : TGMap} {prot : List TurnGroupID} {g : TurnGroupID}
    (hok : ProtOk tgs prot) (hc : couldBeProtectedIds g prot tgs = true) :
    ProtOk tgs (insertGID g prot) := by
  intro g1 h1 g2 h2
  rw [mem_insertGID] at h1 h2
  rcases h1 with rfl | h1 <;> rcases h2 with rfl | h2
  · exact group_conflicts_with_irrefl _
  · exact (couldBeProtectedIds_spec hc g2 h2).2
  · rw [group_conflicts_with_comm]
    exact (couldBeProtectedIds_spec hc g1 h1).2
  · exact hok g1 h1 g2 h2

theorem pickProtected_spec {tgs : TGMap} {prot rem : List TurnGroupID}
    {g : TurnGroupID} {rest : List TurnGroupID}
    (h : pickProtected tgs prot rem = some (g, rest)) :
    couldBeProtectedIds g prot tgs = true ∧ g ∈ rem ∧
    (∀ x ∈ rest, x ∈ rem) ∧ (∀ x ∈ rem, x = g ∨ x ∈ rest) := by
  induction rem generalizing rest with
  | nil => simp [pickProtected] at h
  | cons y ys ih =>
    unfold pickProtected at h
    by_cases hc : couldBeProtectedIds y prot tgs = true
    · rw [if_pos hc] at h
      simp only [Option.some.injEq, Prod.mk.injEq] at h
      obtain ⟨rfl, rfl⟩ := h
      refine ⟨hc, List.mem_cons_self _ _, fun x hx => List.mem_cons_of_mem _ hx,
        fun x hx => List.mem_cons.mp hx⟩
    · rw [if_neg hc] at h
      rcases hop : pickProtected tgs prot ys with _ | ⟨g2, rest2⟩
      · rw [hop] at h
        simp at h
      · rw [hop] at h
        simp only [Option.map_some', Option.some.injEq, Prod.mk.injEq] at h
        obtain ⟨rfl, rfl⟩ := h
        obtain ⟨h1, h2, h3, h4⟩ := ih hop
        refine ⟨h1, List.mem_cons_of_mem _ h2, ?_, ?_⟩
        · intro x hx
          rcases List.mem_cons.mp hx with rfl | hx2
          · exact List.mem_cons_self _ _
          · exact List.mem_cons_of_mem _ (h3 x hx2)
        · intro x hx
          rcases List.mem_cons.mp hx with rfl | hx2
          · exact Or.inr (List.mem_cons_self _ _)
          · rcases h4 x hx2 with rfl | hx3
            · exact Or.inl rfl
            · exact Or.inr (List.mem_cons_of_mem _ hx3)

theorem buildGreedyPhase_spec (tgs : TGMap) :
    ∀ (n : Nat) (rem prot : List TurnGroupID), rem.length ≤ n →
      (∀ x ∈ (buildGreedyPhase tgs rem prot).1, x ∈ prot ∨ x ∈ rem) ∧
      (∀ x ∈ prot, x ∈ (buildGreedyPhase tgs rem prot).1) ∧
      (∀ x ∈ rem, x ∈ (buildGreedyPhase tgs rem prot).1 ∨
        x ∈ (buildGreedyPhase tgs rem prot).2) ∧
      (∀ x ∈ (buildGreedyPhase tgs rem prot).2, x ∈ rem) ∧
      (ProtOk tgs prot → ProtOk tgs (buildGreedyPhase tgs rem prot).1) := by
  intro n
  induction n with
  | zero =>
    intro rem prot h
    obtain rfl : rem = [] := List.length_eq_zero.mp (Nat.le_zero.mp h)
    rw [buildGreedyPhase]
    simp [pickProtected]
  | succ n ih =>
    intro rem prot h
    rw [buildGreedyPhase]
    rcases hp : pickProtected tgs prot rem with _ | ⟨g, rest⟩
    · simp only
      exact ⟨fun x hx => Or.inl hx, fun x hx => hx, fun x hx => Or.inr hx,
        fun x hx => hx, fun hok => hok⟩
    · simp only
      obtain ⟨hc, hgmem, hsub, hsplit⟩ := pickProtected_spec hp
      have hlen := pickProtected_length hp
      obtain ⟨s1, s2, s3, s4, s5⟩ := ih rest (insertGID g prot) (by omega)
      refine ⟨?_, ?_, ?_, ?_, ?_⟩
      · intro x hx
        rcases s1 x hx with hxi | hx2
        · rcases mem_insertGID.mp hxi with rfl | hxp
          · exact Or.inr hgmem
          · exact Or.inl hxp
        · exact Or.inr (hsub x hx2)
      · intro x hx
        exact s2 x (mem_insertGID.mpr (Or.inr hx))
      · intro x hx
        rcases hsplit x hx with rfl | hx2
        · exact Or.inl (s2 x (mem_insertGID.mpr (Or.inl rfl)))
        · exact s3 x hx2
      · intro x hx
        exact hsub x (s4 x hx)
      · intro hok
        exact s5 (ProtOk_insert hok hc)

theorem greedyPhasesList_spec (tgs : TGMap) :
    ∀ (n : Nat) (rem : List TurnGroupID), rem.length ≤ n →
      (∀ ph ∈ greedyPhasesList tgs rem,
        (∀ x ∈ ph.protected_groups, x ∈ rem) ∧ ph.yield_groups = [] ∧
        ph.duration = 30 ∧ ProtOk tgs ph.protected_groups) ∧
      (∀ x ∈ rem, ∃ ph ∈ greedyPhasesList tgs rem, x ∈ ph.protected_groups) := by
  intro n
  induction n with
  | zero =>
    intro rem h
    obtain rfl : rem = [] := List.length_eq_zero.mp (Nat.le_zero.mp h)
    rw [greedyPhasesList]
    simp
  | succ n ih =>
    intro rem h
    rcases rem with _ | ⟨g, gs⟩
    · rw [greedyPhasesList]
      simp
    · rw [greedyPhasesList]
      simp only
      obtain ⟨b1, b2, b3, b4, b5⟩ := buildGreedyPhase_spec tgs (g :: gs).length
        (g :: gs) [] (le_refl _)
      have hprog := buildGreedyPhase_progress tgs g gs
      have hlen : (buildGreedyPhase tgs (g :: gs) []).2.length ≤ n := by
        simp only [List.length_cons] at h
        omega
      obtain ⟨t1, t2⟩ := ih (buildGreedyPhase tgs (g :: gs) []).2 hlen
      constructor
      · intro ph hph
        rcases List.mem_cons.mp hph with rfl | hph2
        · refine ⟨?_, rfl, rfl, ?_⟩
          · intro x hx
            rcases b1 x hx with hc | hc
            · cases hc
            · exact hc
          · exact b5 (ProtOk_nil tgs)
        · obtain ⟨q1, q2, q3, q4⟩ := t1 ph hph2
          exact ⟨fun x hx => b4 x (q1 x hx), q2, q3, q4⟩
      · intro x hx
        rcases b3 x hx with hin | hin
        · exact ⟨_, List.mem_cons_self _ _, hin⟩
        · obtain ⟨ph, hph, hxm⟩ := t2 x hin
          exact ⟨ph, List.mem_cons_of_mem _ hph, hxm⟩

theorem expandFold_spec (tgs : TGMap) (ks : List TurnGroupID) :
    ∀ (ph : Phase),
      (∀ x ∈ ph.protected_groups,
        x ∈ (ks.foldl (fun ph g => if ph.could_be_protected g tgs then
          { ph with protected_groups := insertGID g ph.protected_groups }
          else ph) ph).protected_groups) ∧
      (∀ x ∈ (ks.foldl (fun ph g => if ph.could_be_protected g tgs then
          { ph with protected_groups := insertGID g ph.protected_groups }
          else ph) ph).protected_groups,
        x ∈ ph.protected_groups ∨ x ∈ ks) ∧
      (ks.foldl (fun ph g => if ph.could_be_protected g tgs then
          { ph with protected_groups := insertGID g ph.protected_groups }
          else ph) ph).yield_groups = ph.yield_groups ∧
      (ks.foldl (fun ph g => if ph.could_be_protected g tgs then
          { ph with protected_groups := insertGID g ph.protected_groups }
          else ph) ph).duration = ph.duration ∧
      (ProtOk tgs ph.protected_groups →
        ProtOk tgs (ks.foldl (fun ph g => if ph.could_be_protected g tgs then
          { ph with protected_groups := insertGID g ph.protected_groups }
          else ph) ph).protected_groups) := by
  induction ks with
  | nil => exact fun ph => ⟨fun x hx => hx, fun x hx => Or.inl hx, rfl, rfl, id⟩
  | cons k ks ih =>
    intro ph
    rw [List.foldl_cons]
    by_cases hc : ph.could_be_protected k tgs = true
    · rw [if_pos hc]
      obtain ⟨i1, i2, i3, i4, i5⟩ :=
        ih { ph with protected_groups := insertGID k ph.protected_groups }
      refine ⟨?_, ?_, i3, i4, ?_⟩
      · intro x hx
        exact i1 x (mem_insertGID.mpr (Or.inr hx))
      · intro x hx
        rcases i2 x hx with hxi | hxi
        · rcases mem_insertGID.mp hxi with rfl | hxp
          · exact Or.inr (List.mem_cons_self _ _)
          · exact Or.inl hxp
        · exact Or.inr (List.mem_cons_of_mem _ hxi)
      · intro hok
        exact i5 (ProtOk_insert hok hc)
    · rw [if_neg hc]
      obtain ⟨i1, i2, i3, i4, i5⟩ := ih ph
      refine ⟨i1, ?_, i3, i4, i5⟩
      intro x hx
      rcases i2 x hx with hxi | hxi
      · exact Or.inl hxi
      · exact Or.inr (List.mem_cons_of_mem _ hxi)

theorem findConflictingPair_none {tgs : TGMap} {prot : List TurnGroupID}
    (h : ProtOk tgs prot) : findConflictingPair tgs prot = none := by
  unfold findConflictingPair
  rw [List.findSome?_eq_none]
  intro g1 h1
  rw [Option.map_eq_none', List.find?_eq_none]
  intro g2 h2
  simp [h g1 h1 g2 h2]

theorem validatePhases_ok_of {s : ControlTrafficSignal} {l : List Phase}
    (h : ∀ ph ∈ l, ProtOk s.turn_groups ph.protected_groups ∧
      ∀ g ∈ ph.yield_groups,
        (lookupTG s.turn_groups g).turn_type ≠ TurnType.Crosswalk) :
    validatePhases s l = ValidateResult.ok s := by
  induction l with
  | nil => rfl
  | cons ph rest ih =>
    unfold validatePhases
    rw [findConflictingPair_none (h ph (List.mem_cons_self _ _)).1]
    simp only
    rw [if_pos, ih (fun q hq => h q (List.mem_cons_of_mem _ hq))]
    rw [List.all_eq_true]
    intro g hg
    exact decide_eq_true ((h ph (List.mem_cons_self _ _)).2 g hg)

theorem validate_ok_of_parts {s : ControlTrafficSignal}
    (hcov : ∀ x, x ∈ coverageActual s ↔ x ∈ tgKeys s.turn_groups)
    (hph : ∀ ph ∈ s.phases, ProtOk s.turn_groups ph.protected_groups ∧
      ∀ g ∈ ph.yield_groups,
        (lookupTG s.turn_groups g).turn_type ≠ TurnType.Crosswalk) :
    s.validate = ValidateResult.ok s := by
  unfold ControlTrafficSignal.validate
  rw [if_pos, validatePhases_ok_of hph]
  rw [gidSetEq_iff]
  exact ⟨fun x hx => (hcov x).mpr (mem_coverageExpected.mp hx),
    fun x hx => mem_coverageExpected.mpr ((hcov x).mp hx)⟩

/-! ## Invariants of `for_i`, and the C3 theorem -/

theorem foldl_preserve_entry_prop {β : Type} {P : TurnGroupID × TurnGroup → Prop}
    (step : TGMap → β → TGMap)
    (hstep : ∀ acc x, (∀ kv ∈ acc, P kv) → ∀ kv ∈ step acc x, P kv) :
    ∀ (l : List β) (init : TGMap), (∀ kv ∈ init, P kv) →
      ∀ kv ∈ l.foldl step init, P kv := by
  intro l
  induction l with
  | nil => exact fun init h => h
  | cons x xs ih => exact fun init h => ih _ (hstep init x h)

theorem foldl_preserve_acc_prop {β : Type} {Q : TGMap → Prop}
    (step : TGMap → β → TGMap) (hstep : ∀ acc x, Q acc → Q (step acc x)) :
    ∀ (l : List β) (init : TGMap), Q init → Q (l.foldl step init) := by
  intro l
  induction l with
  | nil => exact fun init h => h
  | cons x xs ih => exact fun init h => ih _ (hstep init x h)

/-- Every entry `for_i` builds stores a group whose `id` field is its key. -/
theorem for_i_entry_id (i : Nat) (m : Map) :
    ∀ kv ∈ TurnGroup.for_i i m, kv.2.id = kv.1 := by
  unfold TurnGroup.for_i
  apply foldl_preserve_acc_prop (Q := fun acc => ∀ kv ∈ acc, kv.2.id = kv.1)
  · intro acc k h kv hkv
    rcases mem_insertAssoc.mp ((by rwa [forIVehStep] at hkv :
        kv ∈ insertAssoc (vehGroupEntry m (m.get_turns_in_intersection i) k) acc))
      with rfl | ⟨h2, _⟩
    · rfl
    · exact h kv h2
  · apply foldl_preserve_acc_prop (Q := fun acc => ∀ kv ∈ acc, kv.2.id = kv.1)
    · intro acc t h kv hkv
      rw [forIBaseStep] at hkv
      by_cases h1 : t.turn_type = TurnType.SharedSidewalkCorner
      · rw [if_pos h1] at hkv
        exact h kv hkv
      · rw [if_neg h1] at hkv
        by_cases h2 : t.turn_type = TurnType.Crosswalk
        · rw [if_pos h2] at hkv
          rcases mem_insertAssoc.mp hkv with rfl | ⟨h3, _⟩
          · rfl
          · exact h kv h3
        · rw [if_neg h2] at hkv
          exact h kv hkv
    · intro kv hkv
      cases hkv

/-- The keys of `for_i`'s result are duplicate-free. -/
theorem for_i_keys_nodup (i : Nat) (m : Map) :
    (tgKeys (TurnGroup.for_i i m)).Nodup := by
  unfold TurnGroup.for_i
  apply foldl_preserve_acc_prop (Q := fun acc => (tgKeys acc).Nodup)
  · intro acc k h
    rw [forIVehStep]
    exact keys_nodup_insertAssoc h
  · apply foldl_preserve_acc_prop (Q := fun acc => (tgKeys acc).Nodup)
    · intro acc t h
      rw [forIBaseStep]
      by_cases h1 : t.turn_type = TurnType.SharedSidewalkCorner
      · rwa [if_pos h1]
      · rw [if_neg h1]
        by_cases h2 : t.turn_type = TurnType.Crosswalk
        · rw [if_pos h2]
          exact keys_nodup_insertAssoc h
        · rwa [if_neg h2]
    · simp [tgKeys]

theorem lookupTG_eq {tgs : TGMap} {k : TurnGroupID} {v : TurnGroup}
    (hnd : (tgKeys tgs).Nodup) (h : (k, v) ∈ tgs) : lookupTG tgs k = v := by
  induction tgs with
  | nil => cases h
  | cons kv rest ih =>
    simp only [tgKeys, List.map_cons, List.nodup_cons] at hnd
    rcases List.mem_cons.mp h with rfl | h2
    · simp [lookupTG, List.find?]
    · have hk : k ∈ tgKeys rest := by
        simp only [tgKeys, List.mem_map]
        exact ⟨(k, v), h2, rfl⟩
      have hne : ¬(kv.1 = k) := fun hh => hnd.1 (hh ▸ hk)
      unfold lookupTG
      rw [List.find?_cons_of_neg _ (by simpa using hne)]
      exact ih hnd.2 h2

theorem conflicts_with_of_crosswalks {a b : TurnGroup}
    (ha : a.turn_type = TurnType.Crosswalk) (hb : b.turn_type = TurnType.Crosswalk) :
    TurnGroup.conflicts_with a b = false := by
  unfold TurnGroup.conflicts_with
  split_ifs <;> simp_all

theorem awStep_foldl_spec (tgs : TGMap) :
    ∀ (init : Phase × Phase),
      (∀ x, x ∈ (tgs.foldl awStep init).1.protected_groups ↔
        x ∈ init.1.protected_groups ∨
          ∃ kv ∈ tgs, kv.2.turn_type = TurnType.Crosswalk ∧ x = kv.2.id) ∧
      (∀ x, x ∈ (tgs.foldl awStep init).2.yield_groups ↔
        x ∈ init.2.yield_groups ∨
          ∃ kv ∈ tgs, ¬(kv.2.turn_type = TurnType.Crosswalk) ∧ x = kv.2.id) ∧
      (tgs.foldl awStep init).1.yield_groups = init.1.yield_groups ∧
      (tgs.foldl awStep init).2.protected_groups = init.2.protected_groups := by
  induction tgs with
  | nil =>
    intro init
    exact ⟨fun x => by simp, fun x => by simp, rfl, rfl⟩
  | cons kv rest ih =>
    intro init
    rw [List.foldl_cons]
    by_cases hc : kv.2.turn_type = TurnType.Crosswalk
    · rw [show awStep init kv =
        ({ init.1 with protected_groups := insertGID kv.2.id init.1.protected_groups },
         init.2) from by rw [awStep, if_pos hc]]
      obtain ⟨i1, i2, i3, i4⟩ := ih
        ({ init.1 with protected_groups := insertGID kv.2.id init.1.protected_groups },
         init.2)
      refine ⟨fun x => ?_, fun x => ?_, i3, i4⟩
      · rw [i1]
        simp only [mem_insertGID, List.mem_cons]
        constructor
        · rintro ((rfl | hx) | ⟨q, hq, hqc, rfl⟩)
          · exact Or.inr ⟨kv, Or.inl rfl, hc, rfl⟩
          · exact Or.inl hx
          · exact Or.inr ⟨q, Or.inr hq, hqc, rfl⟩
        · rintro (hx | ⟨q, (rfl | hq), hqc, rfl⟩)
          · exact Or.inl (Or.inr hx)
          · exact Or.inl (Or.inl rfl)
          · exact Or.inr ⟨q, hq, hqc, rfl⟩
      · rw [i2]
        simp only [List.mem_cons]
        constructor
        · rintro (hx | ⟨q, hq, hqc, rfl⟩)
          · exact Or.inl hx
          · exact Or.inr ⟨q, Or.inr hq, hqc, rfl⟩
        · rintro (hx | ⟨q, (rfl | hq), hqc, rfl⟩)
          · exact Or.inl hx
          · exact absurd hc hqc
          · exact Or.inr ⟨q, hq, hqc, rfl⟩
    · rw [show awStep init kv =
        (init.1,
         { init.2 with yield_groups := insertGID kv.2.id init.2.yield_groups }) from
        by rw [awStep, if_neg hc]]
      obtain ⟨i1, i2, i3, i4⟩ := ih
        (init.1, { init.2 with yield_groups := insertGID kv.2.id init.2.yield_groups })
      refine ⟨fun x => ?_, fun x => ?_, i3, i4⟩
      · rw [i1]
        simp only [List.mem_cons]
        constructor
        · rintro (hx | ⟨q, hq, hqc, rfl⟩)
          · exact Or.inl hx
          · exact Or.inr ⟨q, Or.inr hq, hqc, rfl⟩
        · rintro (hx | ⟨q, (rfl | hq), hqc, rfl⟩)
          · exact Or.inl hx
          · exact absurd hqc hc
          · exact Or.inr ⟨q, hq, hqc, rfl⟩
      · rw [i2]
        simp only [mem_insertGID, List.mem_cons]
        constructor
        · rintro ((rfl | hx) | ⟨q, hq, hqc, rfl⟩)
          · exact Or.inr ⟨kv, Or.inl rfl, hc, rfl⟩
          · exact Or.inl hx
          · exact Or.inr ⟨q, Or.inr hq, hqc, rfl⟩
        · rintro (hx | ⟨q, (rfl | hq), hqc, rfl⟩)
          · exact Or.inl (Or.inr hx)
          · exact Or.inl (Or.inl rfl)
          · exact Or.inr ⟨q, hq, hqc, rfl⟩

theorem allWalkYieldPair_mem (tgs : TGMap) :
    (∀ x, x ∈ (allWalkYieldPair tgs).1.protected_groups ↔
      ∃ kv ∈ tgs, kv.2.turn_type = TurnType.Crosswalk ∧ x = kv.2.id) ∧
    (∀ x, x ∈ (allWalkYieldPair tgs).2.yield_groups ↔
      ∃ kv ∈ tgs, ¬(kv.2.turn_type = TurnType.Crosswalk) ∧ x = kv.2.id) ∧
    (allWalkYieldPair tgs).1.yield_groups = [] ∧
    (allWalkYieldPair tgs).2.protected_groups = [] := by
  obtain ⟨a1, a2, a3, a4⟩ := awStep_foldl_spec tgs (Phase.new, Phase.new)
  unfold allWalkYieldPair
  refine ⟨fun x => ?_, fun x => ?_, a3, a4⟩
  · rw [a1]
    simp [Phase.new]
  · rw [a2]
    simp [Phase.new]

theorem greedy_core_validate (tgs : TGMap) (idn : Nat) :
    ControlTrafficSignal.validate
      { id := idn,
        phases := expand_all_phases (greedyPhasesList tgs (tgKeys tgs)) tgs,
        offset := 0, turn_groups := tgs } =
    ValidateResult.ok
      { id := idn,
        phases := expand_all_phases (greedyPhasesList tgs (tgKeys tgs)) tgs,
        offset := 0, turn_groups := tgs } := by
  obtain ⟨gl1, gl2⟩ := greedyPhasesList_spec tgs (tgKeys tgs).length (tgKeys tgs)
    (le_refl _)
  apply validate_ok_of_parts
  · intro x
    rw [mem_coverageActual]
    show (∃ ph ∈ expand_all_phases (greedyPhasesList tgs (tgKeys tgs)) tgs,
      x ∈ ph.protected_groups ∨ x ∈ ph.yield_groups) ↔ x ∈ tgKeys tgs
    constructor
    · rintro ⟨ph, hph, hx⟩
      rw [expand_all_phases, List.mem_map] at hph
      obtain ⟨q, hq, rfl⟩ := hph
      obtain ⟨e1, e2, e3, e4, e5⟩ := expandFold_spec tgs (tgKeys tgs) q
      rcases hx with hx | hx
      · rcases e2 x hx with hx2 | hx2
        · exact (gl1 q hq).1 x hx2
        · exact hx2
      · rw [e3, (gl1 q hq).2.1] at hx
        cases hx
    · intro hx
      obtain ⟨q, hq, hxq⟩ := gl2 x hx
      refine ⟨_, ?_, Or.inl ((expandFold_spec tgs (tgKeys tgs) q).1 x hxq)⟩
      rw [expand_all_phases, List.mem_map]
      exact ⟨q, hq, rfl⟩
  · intro ph hph
    replace hph : ph ∈ expand_all_phases (greedyPhasesList tgs (tgKeys tgs)) tgs := hph
    rw [expand_all_phases, List.mem_map] at hph
    obtain ⟨q, hq, rfl⟩ := hph
    obtain ⟨e1, e2, e3, e4, e5⟩ := expandFold_spec tgs (tgKeys tgs) q
    constructor
    · exact e5 (gl1 q hq).2.2.2
    · intro g hg
      rw [e3, (gl1 q hq).2.1] at hg
      cases hg

theorem all_walk_core_validate (tgs : TGMap) (idn : Nat)
    (hid : ∀ kv ∈ tgs, kv.2.id = kv.1) (hnd : (tgKeys tgs).Nodup) :
    ControlTrafficSignal.validate
      { id := idn,
        phases := [(allWalkYieldPair tgs).1, (allWalkYieldPair tgs).2],
        offset := 0, turn_groups := tgs } =
    ValidateResult.ok
      { id := idn,
        phases := [(allWalkYieldPair tgs).1, (allWalkYieldPair tgs).2],
        offset := 0, turn_groups := tgs } := by
  obtain ⟨a1, a2, a3, a4⟩ := allWalkYieldPair_mem tgs
  have hlk : ∀ kv ∈ tgs, lookupTG tgs kv.2.id = kv.2 := by
    intro kv hkv
    rw [hid kv hkv]
    exact lookupTG_eq hnd (by rwa [show ((kv.1, kv.2) : TurnGroupID × TurnGroup) = kv
      from rfl])
  apply validate_ok_of_parts
  · intro x
    rw [mem_coverageActual]
    show (∃ ph ∈ [(allWalkYieldPair tgs).1, (allWalkYieldPair tgs).2],
      x ∈ ph.protected_groups ∨ x ∈ ph.yield_groups) ↔ x ∈ tgKeys tgs
    constructor
    · rintro ⟨ph, hph, hx⟩
      have hxk : ∃ kv ∈ tgs, x = kv.2.id := by
        rcases List.mem_cons.mp hph with rfl | hph2
        · rcases hx with hx | hx
          · obtain ⟨kv, hkv, _, rfl⟩ := (a1 x).mp hx
            exact ⟨kv, hkv, rfl⟩
          · rw [a3] at hx
            cases hx
        · rcases List.mem_cons.mp hph2 with rfl | hph3
          · rcases hx with hx | hx
            · rw [a4] at hx
              cases hx
            · obtain ⟨kv, hkv, _, rfl⟩ := (a2 x).mp hx
              exact ⟨kv, hkv, rfl⟩
          · cases hph3
      obtain ⟨kv, hkv, rfl⟩ := hxk
      rw [hid kv hkv, tgKeys, List.mem_map]
      exact ⟨kv, hkv, rfl⟩
    · intro hx
      rw [tgKeys, List.mem_map] at hx
      obtain ⟨kv, hkv, rfl⟩ := hx
      by_cases hc : kv.2.turn_type = TurnType.Crosswalk
      · exact ⟨(allWalkYieldPair tgs).1, List.mem_cons_self _ _,
          Or.inl ((a1 kv.1).mpr ⟨kv, hkv, hc, (hid kv hkv).symm⟩)⟩
      · exact ⟨(allWalkYieldPair tgs).2,
          List.mem_cons_of_mem _ (List.mem_cons_self _ _),
          Or.inr ((a2 kv.1).mpr ⟨kv, hkv, hc, (hid kv hkv).symm⟩)⟩
  · intro ph hph
    have hph' : ph = (allWalkYieldPair tgs).1 ∨ ph = (allWalkYieldPair tgs).2 := by
      rcases List.mem_cons.mp hph with rfl | hph2
      · exact Or.inl rfl
      · rcases List.mem_cons.mp hph2 with rfl | hph3
        · exact Or.inr rfl
        · cases hph3
    rcases hph' with rfl | rfl
    · constructor
      · intro g1 h1 g2 h2
        obtain ⟨kv1, hkv1, hc1, rfl⟩ := (a1 g1).mp h1
        obtain ⟨kv2, hkv2, hc2, rfl⟩ := (a1 g2).mp h2
        rw [hlk kv1 hkv1, hlk kv2 hkv2]
        exact conflicts_with_of_crosswalks hc1 hc2
      · intro g hg
        rw [a3] at hg
        cases hg
    · constructor
      · intro g1 h1 g2 h2
        rw [a4] at h1
        cases h1
      · intro g hg
        obtain ⟨kv, hkv, hc, rfl⟩ := (a2 g).mp hg
        rw [hlk kv hkv]
        exact hc

/-- C3: For every intersection whose set of movement groups is non-empty,
the two fallback policies `greedy_assignment` and `all_walk_all_yield` each
produce a signal that passes `validate` — their internal
`validate().unwrap()` calls never panic: coverage holds and no two protected
groups within any phase conflict (and no crosswalk ever lands in a yield
set). -/
theorem fallback_policies_validate (m : Map) (i : Nat)
    (hne : TurnGroup.for_i i m ≠ []) :
    (ControlTrafficSignal.greedy_assignment m i).validate =
      ValidateResult.ok (ControlTrafficSignal.greedy_assignment m i) ∧
    (ControlTrafficSignal.all_walk_all_yield m i).validate =
      ValidateResult.ok (ControlTrafficSignal.all_walk_all_yield m i) :=
  ⟨greedy_core_validate (TurnGroup.for_i i m) i,
   all_walk_core_validate (TurnGroup.for_i i m) i (for_i_entry_id i m)
     (for_i_keys_nodup i m)⟩

/-- A 2-road intersection with a single straight vehicle turn, for the C3
witness. -/
def mapC3 : Map :=
  { turns := [{ id := ⟨0, 0, 1⟩, turn_type := TurnType.Straight,
                geom := ⟨[(0, 0), (1, 0)]⟩, other_crosswalk_ids := [] }],
    laneParent := fun l => l,
    iRoads := fun _ => [0, 1] }

theorem fallback_policies_validate_witness :
    (ControlTrafficSignal.greedy_assignment mapC3 0).validate =
      ValidateResult.ok (ControlTrafficSignal.greedy_assignment mapC3 0) ∧
    (ControlTrafficSignal.all_walk_all_yield mapC3 0).validate =
      ValidateResult.ok (ControlTrafficSignal.all_walk_all_yield mapC3 0) :=
  fallback_policies_validate mapC3 0 (by decide)

/-! ## C8: for_i partitions the intersection's movements -/

theorem map_id_inj {l : List Turn} (hnd : (l.map Turn.id).Nodup)
    {a b : Turn} (ha : a ∈ l) (hb : b ∈ l) (hab : a.id = b.id) : a = b := by
  induction l with
  | nil => cases ha
  | cons x xs ih =>
    simp only [List.map_cons, List.nodup_cons] at hnd
    rcases List.mem_cons.mp ha with rfl | ha2 <;>
      rcases List.mem_cons.mp hb with rfl | hb2
    · rfl
    · exfalso
      apply hnd.1
      rw [hab]
      exact List.mem_map_of_mem _ hb2
    · exfalso
      apply hnd.1
      rw [← hab]
      exact List.mem_map_of_mem _ ha2
    · exact ih hnd.2 ha2 hb2

theorem get_t_eq {m : Map} (hnd : (m.turns.map Turn.id).Nodup) {u : Turn}
    (hu : u ∈ m.turns) : m.get_t u.id = u := by
  unfold Map.get_t
  suffices aux : ∀ (l : List Turn), (l.map Turn.id).Nodup → u ∈ l →
      (l.find? (fun t => t.id = u.id)).getD defaultTurn = u from aux m.turns hnd hu
  intro l hl hul
  induction l with
  | nil => cases hul
  | cons x xs ih =>
    simp only [List.map_cons, List.nodup_cons] at hl
    rcases List.mem_cons.mp hul with rfl | h2
    · simp [List.find?]
    · have hx : ¬(x.id = u.id) := by
        intro heq
        apply hl.1
        rw [heq]
        exact List.mem_map_of_mem _ h2
      rw [List.find?_cons_of_neg _ (by simpa using hx)]
      exact ih hl.2 h2

theorem mem_foldl_insertTid {x : TurnID} (l init : List TurnID) :
    x ∈ l.foldl (fun acc tid => insertTid tid acc) init ↔ x ∈ init ∨ x ∈ l := by
  induction l generalizing init with
  | nil => simp
  | cons y ys ih =>
    simp only [List.foldl_cons, ih, mem_insertTid, List.mem_cons]
    tauto

theorem minTurnType_cases (l : List TurnType) :
    minTurnType l = TurnType.Straight ∨ minTurnType l ∈ l := by
  unfold minTurnType
  have aux : ∀ (l' : List TurnType) (a : TurnType),
      l'.foldl (fun a b => if typeRank b < typeRank a then b else a) a = a ∨
      l'.foldl (fun a b => if typeRank b < typeRank a then b else a) a ∈ l' := by
    intro l'
    induction l' with
    | nil => exact fun a => Or.inl rfl
    | cons b bs ih =>
      intro a
      rw [List.foldl_cons]
      by_cases hc : typeRank b < typeRank a
      · rw [if_pos hc]
        rcases ih b with h | h
        · right
          rw [h]
          exact List.mem_cons_self _ _
        · exact Or.inr (List.mem_cons_of_mem _ h)
      · rw [if_neg hc]
        rcases ih a with h | h
        · exact Or.inl h
        · exact Or.inr (List.mem_cons_of_mem _ h)
  rcases l with _ | ⟨x, xs⟩
  · exact Or.inl rfl
  · rcases aux (x :: xs) ((x :: xs).headD TurnType.Straight) with h | h
    · right
      rw [h]
      exact List.mem_cons_self _ _
    · exact Or.inr h

theorem mapVehTurnType_ne_crosswalk {tt : TurnType}
    (h1 : tt ≠ TurnType.Crosswalk) (h2 : tt ≠ TurnType.SharedSidewalkCorner) :
    mapVehTurnType tt ≠ TurnType.Crosswalk := by
  cases tt <;> simp_all [mapVehTurnType]

theorem isVehicleTurn_iff {t : Turn} :
    isVehicleTurn t = true ↔
      t.turn_type ≠ TurnType.Crosswalk ∧ t.turn_type ≠ TurnType.SharedSidewalkCorner := by
  simp [isVehicleTurn]

/-- Members of the vehicle group keyed `k` are exactly the ids of the vehicle
turns with that road pair. -/
theorem mem_vehMembers {m : Map} {ts : List Turn} {k : Nat × Nat} {x : TurnID} :
    x ∈ vehMembers m ts k ↔
      ∃ u ∈ ts, (isVehicleTurn u = true ∧ vehKey m u = k) ∧ u.id = x := by
  unfold vehMembers
  rw [mem_foldl_insertTid]
  simp only [List.mem_nil_iff, false_or, List.mem_map, List.mem_filter,
    Bool.and_eq_true, decide_eq_true_eq]
  constructor
  · rintro ⟨u, ⟨hu, hv, hk⟩, rfl⟩
    exact ⟨u, hu, ⟨hv, hk⟩, rfl⟩
  · rintro ⟨u, hu, ⟨hv, hk⟩, rfl⟩
    exact ⟨u, ⟨hu, hv, hk⟩, rfl⟩

theorem base_fold_mem_forward (m : Map) :
    ∀ (l : List Turn) (init : TGMap) (kv : TurnGroupID × TurnGroup),
      kv ∈ l.foldl (forIBaseStep m) init →
      kv ∈ init ∨ ∃ t ∈ l, t.turn_type = TurnType.Crosswalk ∧ kv = cwGroupEntry m t := by
  intro l
  induction l with
  | nil => exact fun init kv h => Or.inl h
  | cons x xs ih =>
    intro init kv h
    rw [List.foldl_cons] at h
    rcases ih _ kv h with hin | ⟨t, ht, htc, rfl⟩
    · rw [forIBaseStep] at hin
      split_ifs at hin with h1 h2
      · exact Or.inl hin
      · rcases mem_insertAssoc.mp hin with rfl | ⟨h3, _⟩
        · exact Or.inr ⟨x, List.mem_cons_self _ _, h2, rfl⟩
        · exact Or.inl h3
      · exact Or.inl hin
    · exact Or.inr ⟨t, List.mem_cons_of_mem _ ht, htc, rfl⟩

theorem base_fold_preserve (m : Map) :
    ∀ (l : List Turn) (init : TGMap) (kv : TurnGroupID × TurnGroup),
      kv ∈ init →
      (∀ t ∈ l, t.turn_type = TurnType.Crosswalk → kv.1 ≠ (cwGroupEntry m t).1) →
      kv ∈ l.foldl (forIBaseStep m) init := by
  intro l
  induction l with
  | nil => exact fun init kv h _ => h
  | cons x xs ih =>
    intro init kv h hne
    rw [List.foldl_cons]
    apply ih
    · rw [forIBaseStep]
      split_ifs with h1 h2
      · exact h
      · exact mem_insertAssoc.mpr
          (Or.inr ⟨h, hne x (List.mem_cons_self _ _) h2⟩)
      · exact h
    · exact fun t ht htc => hne t (List.mem_cons_of_mem _ ht) htc

theorem base_fold_insert (m : Map) :
    ∀ (l : List Turn) (init : TGMap) (t : Turn),
      (l.map Turn.id).Nodup → t ∈ l → t.turn_type = TurnType.Crosswalk →
      cwGroupEntry m t ∈ l.foldl (forIBaseStep m) init := by
  intro l
  induction l with
  | nil =>
    intro _ _ _ hmem
    cases hmem
  | cons x xs ih =>
    intro init t hnd hmem hcw
    simp only [List.map_cons, List.nodup_cons] at hnd
    rw [List.foldl_cons]
    rcases List.mem_cons.mp hmem with rfl | h2
    · apply base_fold_preserve
      · rw [forIBaseStep, if_neg (by rw [hcw]; intro hh; cases hh), if_pos hcw]
        exact mem_insertAssoc.mpr (Or.inl rfl)
      · intro t' ht' htc' hkey
        have hids : some t.id = some t'.id :=
          congrArg TurnGroupID.crosswalk hkey
        apply hnd.1
        rw [show t.id = t'.id from Option.some.inj hids]
        exact List.mem_map_of_mem _ ht'
    · exact ih _ t hnd.2 h2 hcw

theorem veh_fold_mem_forward (m : Map) (ts : List Turn) :
    ∀ (ks : List (Nat × Nat)) (init : TGMap) (kv : TurnGroupID × TurnGroup),
      kv ∈ ks.foldl (forIVehStep m ts) init →
      kv ∈ init ∨ ∃ k ∈ ks, kv = vehGroupEntry m ts k := by
  intro ks
  induction ks with
  | nil => exact fun init kv h => Or.inl h
  | cons x xs ih =>
    intro init kv h
    rw [List.foldl_cons] at h
    rcases ih _ kv h with hin | ⟨k, hk, rfl⟩
    · rw [forIVehStep] at hin
      rcases mem_insertAssoc.mp hin with rfl | ⟨h3, _⟩
      · exact Or.inr ⟨x, List.mem_cons_self _ _, rfl⟩
      · exact Or.inl h3
    · exact Or.inr ⟨k, List.mem_cons_of_mem _ hk, rfl⟩

theorem veh_fold_preserve (m : Map) (ts : List Turn) :
    ∀ (ks : List (Nat × Nat)) (init : TGMap) (kv : TurnGroupID × TurnGroup),
      kv ∈ init → (∀ k ∈ ks, kv.1 ≠ (vehGroupEntry m ts k).1) →
      kv ∈ ks.foldl (forIVehStep m ts) init := by
  intro ks
  induction ks with
  | nil => exact fun init kv h _ => h
  | cons x xs ih =>
    intro init kv h hne
    rw [List.foldl_cons]
    apply ih
    · rw [forIVehStep]
      exact mem_insertAssoc.mpr (Or.inr ⟨h, hne x (List.mem_cons_self _ _)⟩)
    · exact fun k hk => hne k (List.mem_cons_of_mem _ hk)

theorem veh_fold_insert (m : Map) (ts : List Turn) :
    ∀ (ks : List (Nat × Nat)) (init : TGMap) (k : Nat × Nat),
      ks.Nodup → k ∈ ks →
      vehGroupEntry m ts k ∈ ks.foldl (forIVehStep m ts) init := by
  intro ks
  induction ks with
  | nil =>
    intro _ _ _ hmem
    cases hmem
  | cons x xs ih =>
    intro init k hnd hmem
    rw [List.nodup_cons] at hnd
    rw [List.foldl_cons]
    rcases List.mem_cons.mp hmem with rfl | h2
    · apply veh_fold_preserve
      · rw [forIVehStep]
        exact mem_insertAssoc.mpr (Or.inl rfl)
      · intro k' hk' hkey
        have : k = k' := by
          have h1 := congrArg TurnGroupID.fromR hkey
        
          have h2 := congrArg TurnGroupID.toR hkey
          exact Prod.ext h1 h2
        exact hnd.1 (this ▸ hk')
    · exact ih _ k hnd.2 h2

/-- Full membership characterization of `for_i` under duplicate-free turn
ids. -/
theorem for_i_mem_iff (i : Nat) (m : Map)
    (hnd : ((m.get_turns_in_intersection i).map Turn.id).Nodup)
    (kv : TurnGroupID × TurnGroup) :
    kv ∈ TurnGroup.for_i i m ↔
      (∃ t ∈ m.get_turns_in_intersection i,
        t.turn_type = TurnType.Crosswalk ∧ kv = cwGroupEntry m t) ∨
      (∃ k ∈ (((m.get_turns_in_intersection i).filter isVehicleTurn).map
          (vehKey m)).dedup,
        kv = vehGroupEntry m (m.get_turns_in_intersection i) k) := by
  unfold TurnGroup.for_i
  constructor
  · intro h
    rcases veh_fold_mem_forward m _ _ _ kv h with hbase | hveh
    · rcases base_fold_mem_forward m _ _ kv hbase with hin | hcw
      · cases hin
      · exact Or.inl hcw
    · exact Or.inr hveh
  · rintro (⟨t, ht, htc, rfl⟩ | ⟨k, hk, rfl⟩)
    · apply veh_fold_preserve
      · exact base_fold_insert m _ [] t hnd ht htc
      · intro k hk heq
        have := congrArg TurnGroupID.crosswalk heq
        simp [cwGroupEntry, vehGroupEntry] at this
    · exact veh_fold_insert m _ _ _ _ (List.nodup_dedup _) hk

/-- C8: For every intersection (of a map whose turns have duplicate-free
ids, the `BTreeMap<TurnID, Turn>` invariant), `TurnGroup::for_i` partitions
the intersection's movements: every turn that is not a SharedSidewalkCorner
appears in the members of exactly one resulting group, SharedSidewalkCorner
turns appear in no group, and every group whose turn_type is Crosswalk has
exactly one member turn. -/
theorem for_i_partitions (m : Map) (i : Nat)
    (hnd : (m.turns.map Turn.id).Nodup) :
    (∀ t ∈ m.get_turns_in_intersection i,
      t.turn_type ≠ TurnType.SharedSidewalkCorner →
      ((TurnGroup.for_i i m).filter (fun kv => t.id ∈ kv.2.members)).length = 1) ∧
    (∀ t ∈ m.get_turns_in_intersection i,
      t.turn_type = TurnType.SharedSidewalkCorner →
      ∀ kv ∈ TurnGroup.for_i i m, t.id ∉ kv.2.members) ∧
    (∀ kv ∈ TurnGroup.for_i i m, kv.2.turn_type = TurnType.Crosswalk →
      kv.2.members.length = 1) := by
  have hndts : ((m.get_turns_in_intersection i).map Turn.id).Nodup := by
    unfold Map.get_turns_in_intersection
    exact List.Nodup.sublist (List.Sublist.map _ (List.filter_sublist m.turns)) hnd
  have final_nodup : (TurnGroup.for_i i m).Nodup :=
    List.Nodup.of_map _ (for_i_keys_nodup i m)
  have hmem_char : ∀ (kv : TurnGroupID × TurnGroup) (t : Turn),
      t ∈ m.get_turns_in_intersection i → kv ∈ TurnGroup.for_i i m →
      t.id ∈ kv.2.members →
      (t.turn_type = TurnType.Crosswalk ∧ kv = cwGroupEntry m t) ∨
      (isVehicleTurn t = true ∧
        kv = vehGroupEntry m (m.get_turns_in_intersection i) (vehKey m t)) := by
    intro kv t ht hkv hmem
    rcases (for_i_mem_iff i m hndts kv).mp hkv with ⟨t', ht', htc', rfl⟩ | ⟨k, hk, rfl⟩
    · have hids : t.id = t'.id := by simpa [cwGroupEntry] using hmem
      obtain rfl := map_id_inj hndts ht ht' hids
      exact Or.inl ⟨htc', rfl⟩
    · obtain ⟨u, hu, ⟨huv, huk⟩, huid⟩ :=
        mem_vehMembers.mp (by simpa [vehGroupEntry] using hmem)
      obtain rfl := map_id_inj hndts hu ht huid
      refine Or.inr ⟨huv, ?_⟩
      rw [huk]
  refine ⟨?_, ?_, ?_⟩
  · intro t ht htn
    by_cases hcw : t.turn_type = TurnType.Crosswalk
    · rw [filter_eq_singleton_of_unique final_nodup
        ((for_i_mem_iff i m hndts _).mpr (Or.inl ⟨t, ht, hcw, rfl⟩))]
      · rfl
      · intro kv hkv
        simp only [decide_eq_true_eq]
        constructor
        · intro hmem
          rcases hmem_char kv t ht hkv hmem with ⟨_, rfl⟩ | ⟨hv, _⟩
          · rfl
          · exact absurd hcw (isVehicleTurn_iff.mp hv).1
        · rintro rfl
          simp [cwGroupEntry]
    · have hv : isVehicleTurn t = true := isVehicleTurn_iff.mpr ⟨hcw, htn⟩
      rw [filter_eq_singleton_of_unique final_nodup
        ((for_i_mem_iff i m hndts _).mpr (Or.inr ⟨vehKey m t,
          List.mem_dedup.mpr (List.mem_map_of_mem _ (List.mem_filter.mpr ⟨ht, hv⟩)),
          rfl⟩))]
      · rfl
      · intro kv hkv
        simp only [decide_eq_true_eq]
        constructor
        · intro hmem
          rcases hmem_char kv t ht hkv hmem with ⟨hc, _⟩ | ⟨_, rfl⟩
          · exact absurd hc hcw
          · rfl
        · rintro rfl
          show t.id ∈ (vehGroupEntry m (m.get_turns_in_intersection i)
            (vehKey m t)).2.members
          have : t.id ∈ vehMembers m (m.get_turns_in_intersection i) (vehKey m t) :=
            mem_vehMembers.mpr ⟨t, ht, ⟨hv, rfl⟩, rfl⟩
          simpa [vehGroupEntry] using this
  · intro t ht hssc kv hkv hmem
    rcases hmem_char kv t ht hkv hmem with ⟨hc, _⟩ | ⟨hv, _⟩
    · rw [hssc] at hc
      cases hc
    · exact (isVehicleTurn_iff.mp hv).2 hssc
  · intro kv hkv hcwt
    rcases (for_i_mem_iff i m hndts kv).mp hkv with ⟨t', _, _, rfl⟩ | ⟨k, hk, rfl⟩
    · simp [cwGroupEntry]
    · exfalso
      have htype : (vehGroupEntry m (m.get_turns_in_intersection i) k).2.turn_type =
          minTurnType ((vehMembers m (m.get_turns_in_intersection i) k).map
            (fun tid => mapVehTurnType (m.get_t tid).turn_type)) := rfl
      rw [htype] at hcwt
      rcases minTurnType_cases ((vehMembers m (m.get_turns_in_intersection i) k).map
          (fun tid => mapVehTurnType (m.get_t tid).turn_type)) with h | h
      · rw [hcwt] at h
        cases h
      · rw [hcwt] at h
        obtain ⟨tid, htid, heq⟩ := List.mem_map.mp h
        obtain ⟨u, hu, ⟨huv, _⟩, rfl⟩ := mem_vehMembers.mp htid
        have humap : u ∈ m.turns := by
          have := hu
          unfold Map.get_turns_in_intersection at this
          exact List.mem_of_mem_filter this
        rw [get_t_eq hnd humap] at heq
        exact mapVehTurnType_ne_crosswalk (isVehicleTurn_iff.mp huv).1
          (isVehicleTurn_iff.mp huv).2 heq

/-- A small intersection with one crosswalk, one straight and one corner
turn, for the C8 witness. -/
def mapC8 : Map :=
  { turns := [{ id := ⟨0, 0, 1⟩, turn_type := TurnType.Crosswalk,
                geom := ⟨[(0, 0), (1, 0)]⟩, other_crosswalk_ids := [] },
              { id := ⟨0, 2, 3⟩, turn_type := TurnType.Straight,
                geom := ⟨[(0, 1), (1, 1)]⟩, other_crosswalk_ids := [] },
              { id := ⟨0, 4, 5⟩, turn_type := TurnType.SharedSidewalkCorner,
                geom := ⟨[(2, 0), (2, 1)]⟩, other_crosswalk_ids := [] }],
    laneParent := fun l => l,
    iRoads := fun _ => [0, 1] }

theorem for_i_partitions_witness :
    ((TurnGroup.for_i 0 mapC8).filter
      (fun kv => (⟨0, 2, 3⟩ : TurnID) ∈ kv.2.members)).length = 1 :=
  (for_i_partitions mapC8 0 (by decide)).1
    { id := ⟨0, 2, 3⟩, turn_type := TurnType.Straight,
      geom := ⟨[(0, 1), (1, 1)]⟩, other_crosswalk_ids := [] }
    (by decide) (by decide)

/-! ## C1: convert_to_ped_scramble applied twice -/

theorem couldBe_self_mem {g : TurnGroupID} {p : List TurnGroupID} {tgs : TGMap}
    (hg : g ∈ p) : couldBeProtectedIds g p tgs = false := by
  cases hall : couldBeProtectedIds g p tgs with
  | false => rfl
  | true => exact absurd rfl (couldBeProtectedIds_spec hall g hg).1

theorem promote_fold_mono (tgs : TGMap) :
    ∀ (l : List TurnGroupID) (acc : List TurnGroupID × List TurnGroupID)
      (x : TurnGroupID), x ∈ acc.1 → x ∈ (l.foldl (promoteStep tgs) acc).1 := by
  intro l
  induction l with
  | nil => exact fun acc x h => h
  | cons g gs ih =>
    intro acc x h
    rw [List.foldl_cons]
    apply ih
    rw [promoteStep]
    split_ifs
    · exact mem_insertGID.mpr (Or.inr h)
    · exact h

theorem promote_fold_sub (tgs : TGMap) :
    ∀ (l : List TurnGroupID) (acc : List TurnGroupID × List TurnGroupID)
      (x : TurnGroupID), x ∈ (l.foldl (promoteStep tgs) acc).1 →
      x ∈ acc.1 ∨ x ∈ l := by
  intro l
  induction l with
  | nil => exact fun acc x h => Or.inl h
  | cons g gs ih =>
    intro acc x h
    rw [List.foldl_cons] at h
    rcases ih _ x h with hin | hin
    · rw [promoteStep] at hin
      split_ifs at hin
      · rcases mem_insertGID.mp hin with rfl | hin2
        · exact Or.inr (List.mem_cons_self _ _)
        · exact Or.inl hin2
      · exact Or.inl hin
    · exact Or.inr (List.mem_cons_of_mem _ hin)

theorem promote_fold_not_could (tgs : TGMap) :
    ∀ (l : List TurnGroupID) (acc : List TurnGroupID × List TurnGroupID),
      ∀ g ∈ l, couldBeProtectedIds g (l.foldl (promoteStep tgs) acc).1 tgs = false := by
  intro l
  induction l with
  | nil =>
    intro acc g hg
    cases hg
  | cons x xs ih =>
    intro acc g hg
    rw [List.foldl_cons]
    rcases List.mem_cons.mp hg with rfl | h2
    · by_cases hc : couldBeProtectedIds g acc.1 tgs = true
      · have hx : g ∈ (promoteStep tgs acc g).1 := by
          rw [promoteStep, if_pos hc]
          exact mem_insertGID.mpr (Or.inl rfl)
        exact couldBe_self_mem (promote_fold_mono tgs xs _ g hx)
      · have hcf : couldBeProtectedIds g acc.1 tgs = false := by
          cases h' : couldBeProtectedIds g acc.1 tgs with
          | false => rfl
          | true => exact absurd h' hc
        cases h' : couldBeProtectedIds g (xs.foldl (promoteStep tgs)
            (promoteStep tgs acc g)).1 tgs with
        | false => rfl
        | true =>
          exfalso
          have hsub : ∀ y ∈ acc.1, y ∈ (xs.foldl (promoteStep tgs)
              (promoteStep tgs acc g)).1 := by
            intro y hy
            apply promote_fold_mono
            rw [promoteStep, if_neg hc]
            exact hy
          have := couldBeProtectedIds_mono hsub h'
          rw [hcf] at this
          cases this
    · exact ih _ g h2

theorem promote_fold_no_change (tgs : TGMap) :
    ∀ (l : List TurnGroupID) (acc : List TurnGroupID × List TurnGroupID),
      (∀ g ∈ l, couldBeProtectedIds g acc.1 tgs = false) →
      l.foldl (promoteStep tgs) acc = acc := by
  intro l
  induction l with
  | nil => exact fun acc _ => rfl
  | cons g gs ih =>
    intro acc h
    rw [List.foldl_cons, promoteStep,
      if_neg (by rw [h g (List.mem_cons_self _ _)]; intro hh; cases hh)]
    exact ih acc (fun g2 hg2 => h g2 (List.mem_cons_of_mem _ hg2))

theorem removal_fold_sub :
    ∀ (prom y : List TurnGroupID) (x : TurnGroupID),
      x ∈ prom.foldl (fun y g => removeGID g y) y → x ∈ y := by
  intro prom
  induction prom with
  | nil => exact fun y x h => h
  | cons g gs ih =>
    intro y x h
    rw [List.foldl_cons] at h
    exact (mem_removeGID.mp (ih _ x h)).1

theorem phase_ext_law {a b : Phase}
    (h1 : a.protected_groups = b.protected_groups)
    (h2 : a.yield_groups = b.yield_groups) (h3 : a.duration = b.duration) :
    a = b := by
  cases a
  cases b
  simp only at h1 h2 h3
  rw [h1, h2, h3]

/-- Applying `stripAndPromote` a second time changes nothing: the crosswalk
strip is a filter (idempotent), and any yield group that survived the first
promotion sweep failed `could_be_protected` against a subset of the final
protected set, so it fails again. -/
theorem stripAndPromote_idem (tgs : TGMap) (ph : Phase)
    (hy : ∀ g ∈ ph.yield_groups,
      (lookupTG tgs g).turn_type ≠ TurnType.Crosswalk) :
    stripAndPromote tgs (stripAndPromote tgs ph) = stripAndPromote tgs ph := by
  have hP2mem : ∀ x ∈ (stripAndPromote tgs ph).protected_groups,
      (lookupTG tgs x).turn_type ≠ TurnType.Crosswalk := by
    intro x hx
    rcases promote_fold_sub tgs ph.yield_groups
        (stripCW tgs ph.protected_groups, []) x hx with hx1 | hx2
    · have := List.mem_filter.mp hx1
      simpa using this.2
    · exact hy x hx2
  have hstrip2 : stripCW tgs (stripAndPromote tgs ph).protected_groups =
      (stripAndPromote tgs ph).protected_groups :=
    List.filter_eq_self.mpr (fun a ha => by simpa using hP2mem a ha)
  have hY2sub : ∀ x ∈ (stripAndPromote tgs ph).yield_groups,
      x ∈ ph.yield_groups :=
    fun x hx => removal_fold_sub _ _ x hx
  have hnc : ∀ g ∈ (stripAndPromote tgs ph).yield_groups,
      couldBeProtectedIds g (stripAndPromote tgs ph).protected_groups tgs = false :=
    fun g hg => promote_fold_not_could tgs ph.yield_groups
      (stripCW tgs ph.protected_groups, []) g (hY2sub g hg)
  have hfold : (stripAndPromote tgs ph).yield_groups.foldl (promoteStep tgs)
      ((stripAndPromote tgs ph).protected_groups, []) =
      ((stripAndPromote tgs ph).protected_groups, []) :=
    promote_fold_no_change tgs _ _ hnc
  apply phase_ext_law
  · show ((stripAndPromote tgs ph).yield_groups.foldl (promoteStep tgs)
      (stripCW tgs (stripAndPromote tgs ph).protected_groups, [])).1 =
      (stripAndPromote tgs ph).protected_groups
    rw [hstrip2, hfold]
  · show ((stripAndPromote tgs ph).yield_groups.foldl (promoteStep tgs)
      (stripCW tgs (stripAndPromote tgs ph).protected_groups, [])).2.foldl
      (fun y g => removeGID g y) (stripAndPromote tgs ph).yield_groups =
      (stripAndPromote tgs ph).yield_groups
    rw [hstrip2, hfold]
    rfl
  · rfl

theorem applyPriority_yield_empty {ph : Phase} {id : TurnGroupID}
    (h : ph.yield_groups = []) :
    (ph.applyPriority TurnPriority.Protected id).yield_groups = [] := by
  unfold Phase.applyPriority
  simp [h, removeGID]

theorem applyPriority_duration (ph : Phase) (pri : TurnPriority) (id : TurnGroupID) :
    (ph.applyPriority pri id).duration = ph.duration := by
  unfold Phase.applyPriority
  cases pri <;> rfl

theorem applyPriority_prot_sub {ph : Phase} {id : TurnGroupID} {x : TurnGroupID}
    (h : x ∈ (ph.applyPriority TurnPriority.Protected id).protected_groups) :
    x = id ∨ x ∈ ph.protected_groups := by
  unfold Phase.applyPriority at h
  simp only at h
  rcases mem_insertGID.mp h with rfl | h2
  · exact Or.inl rfl
  · exact Or.inr (mem_removeGID.mp h2).1

theorem edit_group_fold_yield_empty (ids : List TurnGroupID) :
    ∀ (ph : Phase), ph.yield_groups = [] →
      (ids.foldl (fun ph id => ph.applyPriority TurnPriority.Protected id)
        ph).yield_groups = [] := by
  induction ids with
  | nil => exact fun ph h => h
  | cons i rest ih => exact fun ph h => ih _ (applyPriority_yield_empty h)

theorem edit_group_fold_duration (ids : List TurnGroupID) :
    ∀ (ph : Phase),
      (ids.foldl (fun ph id => ph.applyPriority TurnPriority.Protected id)
        ph).duration = ph.duration := by
  induction ids with
  | nil => exact fun ph => rfl
  | cons i rest ih =>
    intro ph
    rw [List.foldl_cons, ih, applyPriority_duration]

theorem edit_group_fold_prot_sub (ids : List TurnGroupID) :
    ∀ (ph : Phase) (x : TurnGroupID),
      x ∈ (ids.foldl (fun ph id => ph.applyPriority TurnPriority.Protected id)
        ph).protected_groups →
      x ∈ ph.protected_groups ∨ x ∈ ids := by
  induction ids with
  | nil => exact fun ph x h => Or.inl h
  | cons i rest ih =>
    intro ph x h
    rw [List.foldl_cons] at h
    rcases ih _ x h with h2 | h2
    · rcases applyPriority_prot_sub h2 with rfl | h3
      · exact Or.inr (List.mem_cons_self _ _)
      · exact Or.inl h3
    · exact Or.inr (List.mem_cons_of_mem _ h2)

/-- Under the `for_i` invariants, every id `edit_group` touches for a
crosswalk group (the group itself and the sibling groups) names a crosswalk
group of the map. -/
theorem editGroupIds_cw {tgs : TGMap} {m : Map} {kv : TurnGroupID × TurnGroup}
    (hnd : (tgKeys tgs).Nodup)
    (hid : ∀ kv2 ∈ tgs, kv2.2.id = kv2.1)
    (hcw : ∀ kv2 ∈ tgs,
      (kv2.2.turn_type = TurnType.Crosswalk ↔ kv2.1.crosswalk.isSome = true))
    (hsib : ∀ kv2 ∈ tgs, kv2.2.turn_type = TurnType.Crosswalk →
      ∀ t ∈ (m.get_t (kv2.1.crosswalk.getD ⟨0, 0, 0⟩)).other_crosswalk_ids,
        ∃ k ∈ tgKeys tgs, k.crosswalk = some t)
    (hkv : kv ∈ tgs) (hkc : kv.2.turn_type = TurnType.Crosswalk) :
    ∀ id ∈ editGroupIds kv.2 tgs m,
      (lookupTG tgs id).turn_type = TurnType.Crosswalk := by
  intro id hmem
  rw [editGroupIds, if_pos hkc] at hmem
  have hkveq : ((kv.1, kv.2) : TurnGroupID × TurnGroup) = kv := rfl
  rcases List.mem_cons.mp hmem with rfl | h2
  · rw [hid kv hkv, lookupTG_eq hnd (hkveq ▸ hkv)]
    exact hkc
  · rw [List.mem_map] at h2
    obtain ⟨t, ht, rfl⟩ := h2
    rw [hid kv hkv] at ht
    obtain ⟨k, hk, hkt⟩ := hsib kv hkv hkc t ht
    have hsome : ((tgKeys tgs).find? (fun id => id.crosswalk = some t)).isSome := by
      rw [List.find?_isSome]
      exact ⟨k, hk, by simpa using hkt⟩
    obtain ⟨k', hfk'⟩ := Option.isSome_iff_exists.mp hsome
    rw [hfk']
    have hk'mem := List.mem_of_find?_eq_some hfk'
    have hk'p : k'.crosswalk = some t := by simpa using List.find?_some hfk'
    simp only [Option.getD_some]
    rw [tgKeys, List.mem_map] at hk'mem
    obtain ⟨kv', hkv', rfl⟩ := hk'mem
    rw [lookupTG_eq hnd (by exact hkv')]
    exact (hcw kv' hkv').mpr (by rw [hk'p]; rfl)

theorem allWalkPhase_spec (tgs : TGMap) (m : Map)
    (hnd : (tgKeys tgs).Nodup)
    (hid : ∀ kv ∈ tgs, kv.2.id = kv.1)
    (hcw : ∀ kv ∈ tgs,
      (kv.2.turn_type = TurnType.Crosswalk ↔ kv.1.crosswalk.isSome = true))
    (hsib : ∀ kv ∈ tgs, kv.2.turn_type = TurnType.Crosswalk →
      ∀ t ∈ (m.get_t (kv.1.crosswalk.getD ⟨0, 0, 0⟩)).other_crosswalk_ids,
        ∃ k ∈ tgKeys tgs, k.crosswalk = some t) :
    (∀ g ∈ (allWalkPhase tgs m).protected_groups,
      (lookupTG tgs g).turn_type = TurnType.Crosswalk) ∧
    (allWalkPhase tgs m).yield_groups = [] ∧
    (allWalkPhase tgs m).duration = Phase.new.duration := by
  have main : ∀ (l : List (TurnGroupID × TurnGroup)), (∀ kv ∈ l, kv ∈ tgs) →
      ∀ (init : Phase),
      (∀ g ∈ init.protected_groups, (lookupTG tgs g).turn_type = TurnType.Crosswalk) →
      init.yield_groups = [] →
      (∀ g ∈ (l.foldl (scrambleStep tgs m) init).protected_groups,
        (lookupTG tgs g).turn_type = TurnType.Crosswalk) ∧
      ((l.foldl (scrambleStep tgs m) init).yield_groups = []) ∧
      ((l.foldl (scrambleStep tgs m) init).duration = init.duration) := by
    intro l
    induction l with
    | nil => exact fun _ init h hy => ⟨h, hy, rfl⟩
    | cons kv rest ih =>
      intro hsub init hinit hiy
      rw [List.foldl_cons]
      by_cases hc : kv.2.turn_type = TurnType.Crosswalk
      · have hstep : scrambleStep tgs m init kv =
            init.edit_group kv.2 TurnPriority.Protected tgs m := by
          rw [scrambleStep, if_pos hc]
        rw [hstep]
        have hids := editGroupIds_cw hnd hid hcw hsib
          (hsub kv (List.mem_cons_self _ _)) hc
        obtain ⟨r1, r2, r3⟩ := ih (fun q hq => hsub q (List.mem_cons_of_mem _ hq))
          (init.edit_group kv.2 TurnPriority.Protected tgs m)
          (by
            intro g hg
            rcases edit_group_fold_prot_sub _ _ _ hg with h2 | h2
            · exact hinit g h2
            · exact hids g h2)
          (edit_group_fold_yield_empty _ init hiy)
        refine ⟨r1, r2, ?_⟩
        rw [r3]
        exact edit_group_fold_duration _ init
      · have hstep : scrambleStep tgs m init kv = init := by
          rw [scrambleStep, if_neg hc]
        rw [hstep]
        exact ih (fun q hq => hsub q (List.mem_cons_of_mem _ hq)) init hinit hiy
  obtain ⟨r1, r2, r3⟩ := main tgs (fun kv h => h) Phase.new
    (by intro g hg; cases hg) rfl
  exact ⟨r1, r2, r3⟩

/-- A second pass over the appended all-walk phase strips it to the empty
default phase: all its protected groups are crosswalks. -/
theorem stripAndPromote_allWalkPhase (tgs : TGMap) (m : Map)
    (hnd : (tgKeys tgs).Nodup)
    (hid : ∀ kv ∈ tgs, kv.2.id = kv.1)
    (hcw : ∀ kv ∈ tgs,
      (kv.2.turn_type = TurnType.Crosswalk ↔ kv.1.crosswalk.isSome = true))
    (hsib : ∀ kv ∈ tgs, kv.2.turn_type = TurnType.Crosswalk →
      ∀ t ∈ (m.get_t (kv.1.crosswalk.getD ⟨0, 0, 0⟩)).other_crosswalk_ids,
        ∃ k ∈ tgKeys tgs, k.crosswalk = some t) :
    stripAndPromote tgs (allWalkPhase tgs m) = Phase.new := by
  obtain ⟨w1, w2, w3⟩ := allWalkPhase_spec tgs m hnd hid hcw hsib
  have h1 : stripCW tgs (allWalkPhase tgs m).protected_groups = [] := by
    rw [stripCW, List.filter_eq_nil_iff]
    intro g hg
    simp [w1 g hg]
  apply phase_ext_law
  · show ((allWalkPhase tgs m).yield_groups.foldl (promoteStep tgs)
      (stripCW tgs (allWalkPhase tgs m).protected_groups, [])).1 =
      Phase.new.protected_groups
    rw [w2, h1]
    rfl
  · show ((allWalkPhase tgs m).yield_groups.foldl (promoteStep tgs)
      (stripCW tgs (allWalkPhase tgs m).protected_groups, [])).2.foldl
      (fun y g => removeGID g y) (allWalkPhase tgs m).yield_groups =
      Phase.new.yield_groups
    rw [w2, h1]
    rfl
  · exact w3

theorem signal_ext_law {a b : ControlTrafficSignal}
    (h1 : a.id = b.id) (h2 : a.phases = b.phases) (h3 : a.offset = b.offset)
    (h4 : a.turn_groups = b.turn_groups) : a = b := by
  cases a
  cases b
  simp only at h1 h2 h3 h4
  rw [h1, h2, h3, h4]

/-- C1 amended: applying `convert_to_ped_scramble` twice yields the same
signal as applying it once except for one extra phase: the first
application's all-walk phase is stripped to an empty default phase (which
stays in the list) and a fresh all-walk phase is appended. So twice = once
with one empty `Phase::new()` inserted immediately before the final all-walk
phase — in particular the transform is not idempotent. The hypotheses are
the invariants every real signal satisfies: `turn_groups` is the keyed
`for_i` snapshot and the phases passed validation (no crosswalk in a yield
set). -/
theorem convert_to_ped_scramble_twice (s : ControlTrafficSignal) (m : Map)
    (hnd : (tgKeys s.turn_groups).Nodup)
    (hid : ∀ kv ∈ s.turn_groups, kv.2.id = kv.1)
    (hcw : ∀ kv ∈ s.turn_groups,
      (kv.2.turn_type = TurnType.Crosswalk ↔ kv.1.crosswalk.isSome = true))
    (hyields : ∀ ph ∈ s.phases, ∀ g ∈ ph.yield_groups,
      (lookupTG s.turn_groups g).turn_type ≠ TurnType.Crosswalk)
    (hsib : ∀ kv ∈ s.turn_groups, kv.2.turn_type = TurnType.Crosswalk →
      ∀ t ∈ (m.get_t (kv.1.crosswalk.getD ⟨0, 0, 0⟩)).other_crosswalk_ids,
        ∃ k ∈ tgKeys s.turn_groups, k.crosswalk = some t) :
    (s.convert_to_ped_scramble m).convert_to_ped_scramble m =
      { s.convert_to_ped_scramble m with
        phases := (s.convert_to_ped_scramble m).phases.dropLast ++
          [Phase.new, (s.convert_to_ped_scramble m).phases.getLastD Phase.new] } := by
  apply signal_ext_law
  · rfl
  · show List.map (stripAndPromote s.turn_groups)
        (List.map (stripAndPromote s.turn_groups) s.phases ++
          [allWalkPhase s.turn_groups m]) ++ [allWalkPhase s.turn_groups m] =
      (List.map (stripAndPromote s.turn_groups) s.phases ++
        [allWalkPhase s.turn_groups m]).dropLast ++
      [Phase.new, (List.map (stripAndPromote s.turn_groups) s.phases ++
        [allWalkPhase s.turn_groups m]).getLastD Phase.new]
    rw [List.dropLast_concat, List.getLastD_concat, List.map_append, List.map_map]
    rw [List.map_congr_left (fun ph hph => ?_)]
    · show (List.map (stripAndPromote s.turn_groups) s.phases ++
        List.map (stripAndPromote s.turn_groups) [allWalkPhase s.turn_groups m]) ++
        [allWalkPhase s.turn_groups m] =
        List.map (stripAndPromote s.turn_groups) s.phases ++
        [Phase.new, allWalkPhase s.turn_groups m]
      rw [List.map_cons, List.map_nil,
        stripAndPromote_allWalkPhase s.turn_groups m hnd hid hcw hsib,
        List.append_assoc]
      rfl
    · show (stripAndPromote s.turn_groups ∘ stripAndPromote s.turn_groups) ph =
        stripAndPromote s.turn_groups ph
      exact stripAndPromote_idem s.turn_groups ph (hyields ph hph)
  · rfl
  · rfl

/-- A trivial map (the counterexample signal has no crosswalk groups, so the
transform never consults it). -/
def mapC1 : Map := { turns := [], laneParent := fun l => l, iRoads := fun _ => [] }

/-- A valid one-phase signal with a single straight movement group. -/
def sigC1 : ControlTrafficSignal :=
  { id := 0,
    phases := [{ protected_groups := [⟨0, 1, none⟩], yield_groups := [],
                 duration := 30 }],
    offset := 0, turn_groups := [(⟨0, 1, none⟩, grpA)] }

/-- C1 counterexample: `convert_to_ped_scramble` is not idempotent — on this
signal the second application appends another phase, so the phase lists
differ. -/
theorem convert_not_idempotent_counterexample :
    (sigC1.convert_to_ped_scramble mapC1).convert_to_ped_scramble mapC1 ≠
      sigC1.convert_to_ped_scramble mapC1 := by decide

theorem convert_to_ped_scramble_twice_witness :
    (sigC1.convert_to_ped_scramble mapC1).convert_to_ped_scramble mapC1 =
      { sigC1.convert_to_ped_scramble mapC1 with
        phases := (sigC1.convert_to_ped_scramble mapC1).phases.dropLast ++
          [Phase.new,
           (sigC1.convert_to_ped_scramble mapC1).phases.getLastD Phase.new] } :=
  convert_to_ped_scramble_twice sigC1 mapC1 (by decide) (by decide) (by decide)
    (by decide) (by decide)
